import Mathlib

/-!
# corectl `run`: device-slot allocation and launch specification

A shallow embedding of `run.go` (package `main` of corectl): the parsers
`validateNetworkInterfaces` and `validateVolumes`, which fill the slot tables of
the VM descriptor, the part of `runCommand` that derives the kernel command
line and the argument vector handed to the hypervisor, the checks `uuidCheck`,
`validateCPU` and `validateRAM`, and the methods of `etcExports` that add the
NFS signature line to the exports file and remove it.

Conventions of the embedding.

* A Go `string` is a sequence of bytes.  It is represented by a `List Char`, one
  `Char` per byte (the character whose code point is the byte).  Every pattern
  the program looks for is ASCII, so prefix tests, `strings.Split` on `"@"` and
  the regular expressions act on that list exactly as they act on the bytes.
* `log.Fatalln` ends the process.  A function that may call it returns
  `Except Fatal _`; `Except.error` is the aborted run.
* A Go `map[string]T` is an association list in which a key occurs at most once
  when the list is built with `GoMap.set`.  A `nil` map and an empty map are both
  the empty list (they answer every lookup and every `range` alike).
* What the source takes from its surroundings (the working directory, the
  file-system test `os.Stat`, `filepath.Join`, the login name, ...) is a field of
  `Session`.
-/

namespace Corectl

/-! ## Strings -/

/-- Go strings, as the list of their bytes. -/
abbrev GoString := List Char

/-- Decimal rendering of a Go `int`: `strconv.Itoa`, also what `%d` prints. -/
def itoa : Int → GoString
  | Int.ofNat n => Nat.toDigits 10 n
  | Int.negSucc n => '-' :: Nat.toDigits 10 (n + 1)

/-- Value of `strconv.Atoi(string(b))` for a single byte `b`, the error being
dropped as the source does (`slot, _ := strconv.Atoi(...)`): the digit value for
`0`..`9`, and `0` for every other byte. -/
def atoiByte (b : Char) : Int :=
  if b.isDigit then ((b.toNat - 48 : Nat) : Int) else 0

/-- Byte subtraction `x - y` on `uint8`, converted to `int`: wraps modulo 256. -/
def byteSub (x y : Char) : Int :=
  (((x.toNat % 256 + 256 - y.toNat % 256) % 256 : Nat) : Int)

/-- Go `strings.HasPrefix`. -/
def hasPrefix (s pre : GoString) : Bool := pre.isPrefixOf s

/-- Go `strings.Split(s, sep)` for a one-byte separator: the pieces between the
occurrences of `sep`; there is always one piece more than there are separators. -/
def split (sep : Char) : GoString → List GoString
  | [] => [[]]
  | c :: cs =>
    if c = sep then [] :: split sep cs
    else
      match split sep cs with
      | [] => [[c]]
      | piece :: pieces => (c :: piece) :: pieces

/-- Go `regexp.MatchString` for a pattern `lit([cls]{1})$`, as in
`"eth([0-9]{1})$"`: the pattern is not anchored on the left, so it matches when
the text ends with `lit` followed by one byte of the class. -/
def matchLitClassEnd (lit : GoString) (cls : Char → Bool) (s : GoString) : Bool :=
  match s.getLast? with
  | none => false
  | some c => cls c && lit.isSuffixOf s.dropLast

/-! ## Maps -/

/-- Go `map[string]V`. -/
abbrev GoMap (V : Type) := List (GoString × V)

/-- Lookup `m[k]`, with the presence flag as `Option`. -/
def GoMap.get? {V : Type} : GoMap V → GoString → Option V
  | [], _ => none
  | (k1, v) :: rest, k => if k1 = k then some v else GoMap.get? rest k

/-- The `ok` of `_, ok := m[k]`. -/
def GoMap.has {V : Type} (m : GoMap V) (k : GoString) : Bool := (m.get? k).isSome

/-- Assignment `m[k] = v`: replaces the entry of `k` or adds one. -/
def GoMap.set {V : Type} : GoMap V → GoString → V → GoMap V
  | [], k, v => [(k, v)]
  | (k1, v1) :: rest, k, v =>
    if k1 = k then (k, v) :: rest else (k1, v1) :: GoMap.set rest k v

/-! ## The descriptor -/

/-- Kinds of network interface (`Raw`, `Tap`). -/
inductive NetworkType
  | Raw
  | Tap
  deriving DecidableEq

/-- Kinds of storage device (`HDD`, `CDROM`). -/
inductive StorageType
  | HDD
  | CDROM
  deriving DecidableEq

/-- Where a cloud-config lives (`Local`, `Remote`). -/
inductive CCLocation
  | Local
  | Remote
  deriving DecidableEq

/-- Entry of `Network.Raw`. -/
structure NetworkInterface where
  /-- Field `Type` of the source (a reserved word here). -/
  Typ : NetworkType
  Slot : Int
  deriving DecidableEq

/-- Entry of `Storage.HardDrives` and of `Storage.CDDrives`. -/
structure StorageDevice where
  /-- Field `Type` of the source (a reserved word here). -/
  Typ : StorageType
  Slot : Int
  Path : GoString
  deriving DecidableEq

/-- The network aggregate: the only table `run.go` fills is `Raw`. -/
structure Network where
  Raw : GoMap NetworkInterface
  deriving DecidableEq

/-- The storage aggregate. -/
structure Storage where
  HardDrives : GoMap StorageDevice
  CDDrives : GoMap StorageDevice
  deriving DecidableEq

/-- The VM descriptor, with the fields `run.go` reads or writes. -/
structure VMInfo where
  Channel : GoString
  Version : GoString
  Xhyve : GoString
  Extra : GoString
  UUID : GoString
  Cpus : GoString
  Memory : GoString
  SSHkey : GoString
  CloudConfig : GoString
  CClocation : CCLocation
  Network : Network
  Storage : Storage
  deriving DecidableEq

/-- The descriptor at the start of a command: every string empty, every map
empty. -/
def VMInfo.empty : VMInfo :=
  { Channel := [], Version := [], Xhyve := [], Extra := [], UUID := [], Cpus := [],
    Memory := [], SSHkey := [], CloudConfig := [], CClocation := CCLocation.Local,
    Network := { Raw := [] }, Storage := { HardDrives := [], CDDrives := [] } }

/-- Reasons for which `run.go` calls `log.Fatalln` (or would stop on a run-time
error). -/
inductive Fatal
  | netFormat (tok : GoString)
  | volumeFormat (tok : GoString)
  | volumeUnrecognized (tok : GoString)
  | notAValidPath (path : GoString)
  | defineTwice (tag : GoString)
  | slotNotPopulated (slot : Int)
  | indexOutOfRange
  | sameUUIDRunning
  | unableToCreate (dir : GoString)
  | writeFailed (file : GoString)
  | shareFailed
  | fixPermsFailed (dir : GoString)
  | readFailed (file : GoString)
  | nfsdRestartFailed
  deriving DecidableEq

deriving instance DecidableEq for Except

/-- True when the run ended in `log.Fatalln`. -/
def isFatal {α : Type} : Except Fatal α → Bool
  | Except.error _ => true
  | Except.ok _ => false

/-- What the program reads from its surroundings (`SessionContext`, the file
system, the standard library). -/
structure Session where
  /-- Field `SessionContext.pwd`. -/
  pwd : GoString
  /-- Field `SessionContext.configDir`. -/
  configDir : GoString
  /-- Login name `user.LookupId(SessionContext.uid).Username`. -/
  username : GoString
  /-- Test `os.Stat(p)` returned no error. -/
  statOk : GoString → Bool
  /-- Library function `filepath.Join` on two elements. -/
  joinPath : GoString → GoString → GoString
  /-- Call `os.MkdirAll(dir, 0755)` returned no error. -/
  mkdirAllOk : GoString → Bool
  /-- Call `ioutil.WriteFile(file, ...)` returned no error. -/
  writeFileOk : GoString → Bool
  /-- Method `setDefaultNIC`, declared outside `run.go`. -/
  setDefaultNIC : VMInfo → VMInfo
  /-- Call `usersDir.share()` came back (it did not end in `log.Fatalln`). -/
  shareOk : Bool
  /-- Field `SessionContext.hasPowers`. -/
  hasPowers : Bool
  /-- Call `fixPerms(dir)` returned no error. -/
  fixPermsOk : GoString → Bool
  /-- Field `SessionContext.uid`. -/
  uid : GoString
  /-- Field `SessionContext.gid`. -/
  gid : GoString
  /-- Command `nfsd restart` ran without error. -/
  nfsdRestartOk : Bool
  /-- Library function `uuid.FromString(s)` returned no error. -/
  uuidParses : GoString → Bool

/-! ## `validateNetworkInterfaces` -/

/-- Body of the loop of `validateNetworkInterfaces` for one token `j`. -/
def nicStep (vm : VMInfo) (j : GoString) : Except Fatal VMInfo :=
  if j.length > 0 then
    if hasPrefix j "eth".toList then
      if !(matchLitClassEnd "eth".toList Char.isDigit j) then
        Except.error (Fatal.netFormat j)
      else
        match j.getLast? with
        | none => Except.error Fatal.indexOutOfRange
        | some b =>
          let slot := atoiByte b
          let cd := vm.Network.Raw
          let k := itoa slot
          if cd.has k then Except.error (Fatal.defineTwice j)
          else
            let kp := itoa (slot - 1)
            let ok := cd.has kp
            if !(slot == 0 || ok) then Except.error (Fatal.slotNotPopulated slot)
            else
              Except.ok { vm with Network := { vm.Network with
                Raw := cd.set k { Typ := NetworkType.Raw, Slot := slot } } }
    else if hasPrefix j "tap".toList then
      if !(matchLitClassEnd "tap".toList Char.isDigit j) then
        Except.error (Fatal.netFormat j)
      else Except.ok vm
    else Except.error (Fatal.netFormat j)
  else Except.ok vm

/-- Method `validateNetworkInterfaces`: the tokens are handled from left to
right, the first fatal error ends the run. -/
def validateNetworkInterfaces : VMInfo → List GoString → Except Fatal VMInfo
  | vm, [] => Except.ok vm
  | vm, j :: rest =>
    match nicStep vm j with
    | Except.error e => Except.error e
    | Except.ok vm1 => validateNetworkInterfaces vm1 rest

/-! ## `validateVolumes` -/

/-- Body of the loop of `validateVolumes` for one token `j`. -/
def volumeStep (env : Session) (vm : VMInfo) (j : GoString) : Except Fatal VMInfo :=
  if j.length > 0 then
    match split '@' j with
    | [arr0, arr1] =>
      if !(env.statOk arr1) then Except.error (Fatal.notAValidPath arr1)
      else if hasPrefix arr0 "vd".toList then
        if !(matchLitClassEnd "vd".toList Char.isLower arr0) then
          Except.error (Fatal.volumeUnrecognized j)
        else
          match arr0.get? 2 with
          | none => Except.error Fatal.indexOutOfRange
          | some b =>
            let slot := byteSub b 'a'
            let hdd := vm.Storage.HardDrives
            let k := itoa slot
            if hdd.has k then Except.error (Fatal.defineTwice arr0)
            else
              let kp := itoa (slot - 1)
              let ok := hdd.has kp
              if !(slot == 0 || ok) then Except.error (Fatal.slotNotPopulated slot)
              else
                Except.ok { vm with Storage := { vm.Storage with
                  HardDrives := hdd.set k
                    { Typ := StorageType.HDD, Slot := slot,
                      Path := env.joinPath env.pwd arr1 } } }
      else if hasPrefix arr0 "cdrom".toList then
        if !(matchLitClassEnd "cdrom".toList Char.isDigit arr0) then
          Except.error (Fatal.volumeUnrecognized j)
        else
          match arr0.getLast? with
          | none => Except.error Fatal.indexOutOfRange
          | some b =>
            let slot := atoiByte b
            let cd := vm.Storage.CDDrives
            let k := itoa slot
            if cd.has k then Except.error (Fatal.defineTwice arr0)
            else
              let kp := itoa (slot - 1)
              let ok := cd.has kp
              if !(slot == 0 || ok) then Except.error (Fatal.slotNotPopulated slot)
              else
                Except.ok { vm with Storage := { vm.Storage with
                  CDDrives := cd.set k
                    { Typ := StorageType.CDROM, Slot := slot,
                      Path := env.joinPath env.pwd arr1 } } }
      else Except.error (Fatal.volumeUnrecognized j)
    | _ => Except.error (Fatal.volumeFormat j)
  else Except.ok vm

/-- Method `validateVolumes`: the tokens are handled from left to right, the
first fatal error ends the run. -/
def validateVolumes (env : Session) : VMInfo → List GoString → Except Fatal VMInfo
  | vm, [] => Except.ok vm
  | vm, j :: rest =>
    match volumeStep env vm j with
    | Except.error e => Except.error e
    | Except.ok vm1 => validateVolumes env vm1 rest

/-- A session for concrete evaluations: every path exists except those ending
in `/config` (no VM is running), `filepath.Join` is `dir ++ "/" ++ file`, and no
call to the system fails. -/
def Session.demo : Session :=
  { pwd := "/w".toList, configDir := "/c".toList, username := "me".toList,
    statOk := fun p => !("/config".toList.isSuffixOf p),
    joinPath := fun d f => d ++ '/' :: f,
    mkdirAllOk := fun _ => true,
    writeFileOk := fun _ => true,
    setDefaultNIC := fun vm => vm,
    shareOk := true, hasPowers := false, fixPermsOk := fun _ => true,
    uid := "501".toList, gid := "20".toList, nfsdRestartOk := true,
    uuidParses := fun s => s.length == 36 }

/-! ## `runCommand`: the launch specification -/

/-- Orders in which the three `range` loops of `runCommand` visit the entries of
`Network.Raw`, `Storage.CDDrives` and `Storage.HardDrives`.  Go leaves the
iteration order of a map unspecified, so the order is an input of the model. -/
structure RangeOrder where
  raw : List (GoString × NetworkInterface)
  cd : List (GoString × StorageDevice)
  hd : List (GoString × StorageDevice)
  deriving DecidableEq

/-- The orders visit each entry of the maps of `vm` once. -/
def RangeOrder.Visits (o : RangeOrder) (vm : VMInfo) : Prop :=
  o.raw.Perm vm.Network.Raw ∧ o.cd.Perm vm.Storage.CDDrives ∧
    o.hd.Perm vm.Storage.HardDrives

/-- Lines 69-74 of `runCommand`: the command line before the cloud-config part. -/
def cmdlineStart (env : Session) (vm : VMInfo) : GoString :=
  let cmdline := "earlyprintk=serial".toList ++ " ".toList ++ "console=ttyS0".toList ++
    " ".toList ++ "coreos.autologin".toList ++ " ".toList ++
    ("localuser=".toList ++ env.username) ++ " ".toList ++ ("uuid=".toList ++ vm.UUID)
  if vm.SSHkey ≠ [] then cmdline ++ " sshkey=\"".toList ++ vm.SSHkey ++ "\"".toList
  else cmdline

/-- Lines 75-76 of `runCommand`. -/
def vmlinuzPath (env : Session) (vm : VMInfo) : GoString :=
  env.configDir ++ "/images/".toList ++ vm.Channel ++ "/".toList ++ vm.Version ++
    "/coreos_production_pxe.vmlinuz".toList

/-- Lines 77-78 of `runCommand`. -/
def initrdPath (env : Session) (vm : VMInfo) : GoString :=
  env.configDir ++ "/images/".toList ++ vm.Channel ++ "/".toList ++ vm.Version ++
    "/coreos_production_pxe_image.cpio.gz".toList

/-- Lines 80-91 of `runCommand`: the fixed flags and the extra flags. -/
def instrStart (vm : VMInfo) : List GoString :=
  let instr := ["-s".toList, "0:0,hostbridge".toList, "-l".toList, "com1,stdio".toList,
    "-s".toList, "31,lpc".toList, "-U".toList, vm.UUID, "-m".toList,
    vm.Memory ++ "M".toList, "-c".toList, vm.Cpus, "-A".toList]
  if vm.Extra ≠ [] then instr ++ [vm.Extra] else instr

/-- Lines 68-153 of `runCommand`, from the point where the descriptor is
validated to the call of `exec.Command`: the result is the kernel command line
and the argument vector that `exec.Command` receives after the path of the
hypervisor, or the fatal error that ended the run before.  The fixed flags, the
command line and the image paths are read from `vm` before the call
`vm.setDefaultNIC()` of line 112; the three `range` loops that follow it visit
the entries listed in `o`, which stand for the maps of `env.setDefaultNIC vm`
(see `RangeOrder.Visits`). -/
def runCommand (env : Session) (vm : VMInfo) (o : RangeOrder) :
    Except Fatal (GoString × List GoString) :=
  let cmdline := cmdlineStart env vm
  let vmlinuz := vmlinuzPath env vm
  let initrd := initrdPath env vm
  let instr := instrStart vm
  let rundir := env.configDir ++ "/running/".toList ++ vm.UUID ++ "/".toList
  if env.statOk (env.joinPath rundir "/config".toList) then
    Except.error Fatal.sameUUIDRunning
  else if !(env.mkdirAllOk rundir) then Except.error (Fatal.unableToCreate rundir)
  else
    let afterCloudConfig : Except Fatal GoString :=
      if vm.CloudConfig ≠ [] then
        if vm.CClocation = CCLocation.Local then
          if !(env.writeFileOk (rundir ++ "/cloud-config.local".toList)) then
            Except.error (Fatal.writeFailed (rundir ++ "/cloud-config.local".toList))
          else Except.ok cmdline
        else Except.ok (cmdline ++ " cloud-config-url=".toList ++ vm.CloudConfig)
      else Except.ok cmdline
    match afterCloudConfig with
    | Except.error e => Except.error e
    | Except.ok cmdline =>
      let instr := o.raw.foldl (fun acc e =>
        acc ++ ["-s".toList, "2:".toList ++ itoa e.2.Slot ++ ",virtio-net".toList]) instr
      let instr := o.cd.foldl (fun acc e =>
        acc ++ ["-s".toList,
          "3:".toList ++ itoa e.2.Slot ++ ",ahci-cd,".toList ++ e.2.Path]) instr
      let instr := o.hd.foldl (fun acc e =>
        acc ++ ["-s".toList,
          "4:".toList ++ itoa e.2.Slot ++ ",virtio-blk,".toList ++ e.2.Path]) instr
      if !env.shareOk then Except.error Fatal.shareFailed
      else if !(env.writeFileOk (rundir ++ "/config".toList)) then
        Except.error (Fatal.writeFailed (rundir ++ "/config".toList))
      else if env.hasPowers && !(env.fixPermsOk rundir) then
        Except.error (Fatal.fixPermsFailed rundir)
      else
        Except.ok (cmdline, instr ++ ["-f".toList,
          "kexec,".toList ++ vmlinuz ++ ",".toList ++ initrd ++ ",".toList ++ cmdline])

/-! ## Notions used to state the properties -/

/-- One slot insertion, as the source writes it three times (for `Network.Raw`,
`Storage.HardDrives` and `Storage.CDDrives`): fatal when the key of the slot is
taken, fatal when the slot is not 0 and the key of the slot before is free,
otherwise the entry is stored under the key of the slot. -/
def insertSlot {V : Type} (m : GoMap V) (slot : Int) (v : V) (tag : GoString) :
    Except Fatal (GoMap V) :=
  if m.has (itoa slot) then Except.error (Fatal.defineTwice tag)
  else if !(slot == 0 || m.has (itoa (slot - 1))) then
    Except.error (Fatal.slotNotPopulated slot)
  else Except.ok (m.set (itoa slot) v)

/-- What `nicStep` extracts from a token before it touches the table: `none` for
a token that adds nothing (empty, or a `tap` token), the slot for an `eth` token. -/
def nicParse (j : GoString) : Except Fatal (Option Int) :=
  if j.length > 0 then
    if hasPrefix j "eth".toList then
      if !(matchLitClassEnd "eth".toList Char.isDigit j) then
        Except.error (Fatal.netFormat j)
      else
        match j.getLast? with
        | none => Except.error Fatal.indexOutOfRange
        | some b => Except.ok (some (atoiByte b))
    else if hasPrefix j "tap".toList then
      if !(matchLitClassEnd "tap".toList Char.isDigit j) then
        Except.error (Fatal.netFormat j)
      else Except.ok none
    else Except.error (Fatal.netFormat j)
  else Except.ok none

/-- What `volumeStep` extracts from a token before it touches a table: `none`
for the empty token, otherwise the class, the slot, the tag before `@` and the
path after it. -/
def volumeParse (statOk : GoString → Bool) (j : GoString) :
    Except Fatal (Option (StorageType × Int × GoString × GoString)) :=
  if j.length > 0 then
    match split '@' j with
    | [arr0, arr1] =>
      if !(statOk arr1) then Except.error (Fatal.notAValidPath arr1)
      else if hasPrefix arr0 "vd".toList then
        if !(matchLitClassEnd "vd".toList Char.isLower arr0) then
          Except.error (Fatal.volumeUnrecognized j)
        else
          match arr0.get? 2 with
          | none => Except.error Fatal.indexOutOfRange
          | some b => Except.ok (some (StorageType.HDD, byteSub b 'a', arr0, arr1))
      else if hasPrefix arr0 "cdrom".toList then
        if !(matchLitClassEnd "cdrom".toList Char.isDigit arr0) then
          Except.error (Fatal.volumeUnrecognized j)
        else
          match arr0.getLast? with
          | none => Except.error Fatal.indexOutOfRange
          | some b => Except.ok (some (StorageType.CDROM, atoiByte b, arr0, arr1))
      else Except.error (Fatal.volumeUnrecognized j)
    | _ => Except.error (Fatal.volumeFormat j)
  else Except.ok none

/-- The network slot a token declares, if its format lets it reach the table. -/
def nicDeclares (j : GoString) : Option Int :=
  match nicParse j with
  | Except.ok (some slot) => some slot
  | _ => none

/-- The storage class and slot a token declares, if its format lets it reach a
table (the path is not looked at). -/
def volumeDeclares (j : GoString) : Option (StorageType × Int) :=
  match volumeParse (fun _ => true) j with
  | Except.ok (some (cls, slot, _, _)) => some (cls, slot)
  | _ => none

/-- The keys of `m` are the decimal renderings of `0 .. k-1`, and the entry under
the key of `i` has slot `i`. -/
def GaplessTo {V : Type} (slotOf : V → Int) (k : Nat) (m : GoMap V) : Prop :=
  (∀ e ∈ m, ∃ i : Nat, i < k ∧ e.1 = itoa i) ∧
    (∀ i : Nat, i < k → (m.get? (itoa i)).map slotOf = some (i : Int))

/-- The table is a gapless run of slots starting at 0. -/
def Gapless {V : Type} (slotOf : V → Int) (m : GoMap V) : Prop :=
  ∃ k : Nat, GaplessTo slotOf k m

/-- The three slot tables of a descriptor are gapless. -/
def SlotTablesGapless (vm : VMInfo) : Prop :=
  Gapless NetworkInterface.Slot vm.Network.Raw ∧
    Gapless StorageDevice.Slot vm.Storage.HardDrives ∧
    Gapless StorageDevice.Slot vm.Storage.CDDrives

/-- The storage table of a class: `HardDrives` for `HDD`, `CDDrives` for `CDROM`. -/
def tableOf (cls : StorageType) (vm : VMInfo) : GoMap StorageDevice :=
  match cls with
  | StorageType.HDD => vm.Storage.HardDrives
  | StorageType.CDROM => vm.Storage.CDDrives

/-- Every entry of the three tables of `vm` is still there, unchanged, in `vm1`. -/
def KeepsEntries (vm vm1 : VMInfo) : Prop :=
  (∀ key v, vm.Network.Raw.get? key = some v → vm1.Network.Raw.get? key = some v) ∧
  (∀ key v, vm.Storage.HardDrives.get? key = some v →
    vm1.Storage.HardDrives.get? key = some v) ∧
  (∀ key v, vm.Storage.CDDrives.get? key = some v →
    vm1.Storage.CDDrives.get? key = some v)

/-- The kernel command line as the documentation words it: the fixed
parameters with the login name and the UUID, then the SSH key when there is
one, then the cloud-config URL when there is a cloud-config and it is remote. -/
def documentedCmdline (env : Session) (vm : VMInfo) : GoString :=
  "earlyprintk=serial console=ttyS0 coreos.autologin localuser=".toList ++ env.username ++
    " uuid=".toList ++ vm.UUID ++
    (if vm.SSHkey ≠ [] then " sshkey=\"".toList ++ vm.SSHkey ++ "\"".toList else []) ++
    (if vm.CloudConfig ≠ [] ∧ vm.CClocation = CCLocation.Remote then
      " cloud-config-url=".toList ++ vm.CloudConfig else [])

/-- The `kexec` directive as the documentation words it. -/
def documentedKexec (env : Session) (vm : VMInfo) (cmdline : GoString) : GoString :=
  "kexec,".toList ++
    (env.configDir ++ "/images/".toList ++ vm.Channel ++ "/".toList ++ vm.Version ++
      "/coreos_production_pxe.vmlinuz".toList) ++ ",".toList ++
    (env.configDir ++ "/images/".toList ++ vm.Channel ++ "/".toList ++ vm.Version ++
      "/coreos_production_pxe_image.cpio.gz".toList) ++ ",".toList ++ cmdline

/-- The argument vector as the documentation words it: the fixed flags, the
extra flags as one token when there are any, one pair per network interface,
one pair per CD drive, one pair per hard drive, the `kexec` directive. -/
def documentedVector (env : Session) (vm : VMInfo) (o : RangeOrder) (cmdline : GoString) :
    List GoString :=
  ["-s".toList, "0:0,hostbridge".toList, "-l".toList, "com1,stdio".toList, "-s".toList,
    "31,lpc".toList, "-U".toList, vm.UUID, "-m".toList, vm.Memory ++ "M".toList,
    "-c".toList, vm.Cpus, "-A".toList] ++
  (if vm.Extra ≠ [] then [vm.Extra] else []) ++
  o.raw.flatMap (fun e =>
    ["-s".toList, "2:".toList ++ itoa e.2.Slot ++ ",virtio-net".toList]) ++
  o.cd.flatMap (fun e =>
    ["-s".toList, "3:".toList ++ itoa e.2.Slot ++ ",ahci-cd,".toList ++ e.2.Path]) ++
  o.hd.flatMap (fun e =>
    ["-s".toList, "4:".toList ++ itoa e.2.Slot ++ ",virtio-blk,".toList ++ e.2.Path]) ++
  ["-f".toList, documentedKexec env vm cmdline]

/-- No step of `runCommand` between the validation of the descriptor and the
start of the hypervisor fails: no VM runs under the same UUID, the run directory
can be created, the files can be written, the NFS share and the fix of the
permissions go through. -/
def LaunchReached (env : Session) (vm : VMInfo) : Prop :=
  env.statOk (env.joinPath (env.configDir ++ "/running/".toList ++ vm.UUID ++ "/".toList)
    "/config".toList) = false ∧
  env.mkdirAllOk (env.configDir ++ "/running/".toList ++ vm.UUID ++ "/".toList) = true ∧
  (∀ file, env.writeFileOk file = true) ∧
  env.shareOk = true ∧
  (∀ dir, env.fixPermsOk dir = true)

/-- A storage specifier of the documented grammar: `vd<c>@<path>` or
`cdrom<d>@<path>`. -/
inductive VolumeSpec
  | vd (c : Char) (path : GoString)
  | cdrom (d : Char) (path : GoString)
  deriving DecidableEq

/-- The token a specifier is written as. -/
def VolumeSpec.token : VolumeSpec → GoString
  | VolumeSpec.vd c path => "vd".toList ++ [c] ++ '@' :: path
  | VolumeSpec.cdrom d path => "cdrom".toList ++ [d] ++ '@' :: path

/-- The specifier is exactly of the documented form and its path exists: a
lowercase letter after `vd`, a digit after `cdrom`, no `@` in the path. -/
def VolumeSpec.WellFormed (statOk : GoString → Bool) : VolumeSpec → Prop
  | VolumeSpec.vd c path => c.isLower = true ∧ '@' ∉ path ∧ statOk path = true
  | VolumeSpec.cdrom d path => d.isDigit = true ∧ '@' ∉ path ∧ statOk path = true

/-- Hard-drive slots of a list of specifiers, in declaration order: the offset
of the letter from `a`. -/
def hdSlots : List VolumeSpec → List Nat
  | [] => []
  | VolumeSpec.vd c _ :: rest => (c.toNat - 97) :: hdSlots rest
  | VolumeSpec.cdrom _ _ :: rest => hdSlots rest

/-- CD slots of a list of specifiers, in declaration order: the digit. -/
def cdSlots : List VolumeSpec → List Nat
  | [] => []
  | VolumeSpec.vd _ _ :: rest => cdSlots rest
  | VolumeSpec.cdrom d _ :: rest => (d.toNat - 48) :: cdSlots rest

/-- The network token `eth<d>`. -/
def ethToken (d : Nat) : GoString := "eth".toList ++ [Nat.digitChar d]

/-- The entry `validateNetworkInterfaces` stores for slot `i`. -/
def rawEntry (i : Nat) : GoString × NetworkInterface :=
  (itoa i, { Typ := NetworkType.Raw, Slot := i })

/-! ## Decimal keys -/

/-- Value of a string of decimal digits, read from the left. -/
def digitsValue (l : GoString) : Nat :=
  l.foldl (fun a c => 10 * a + (c.toNat - 48)) 0

/-- Reads back a decimal rendering, with an optional leading minus sign. -/
def parseInt : GoString → Int
  | [] => 0
  | c :: t => if c = '-' then -((digitsValue t : Nat) : Int) else ((digitsValue (c :: t) : Nat) : Int)

/-- A descriptor with two network interfaces, used for concrete evaluations. -/
def VMInfo.twoNics : VMInfo :=
  { VMInfo.empty with
    Channel := "alpha".toList, Version := "1".toList, UUID := "u".toList,
    Cpus := "1".toList, Memory := "1024".toList,
    Network := { Raw := [rawEntry 0, rawEntry 1] } }

/-! ## `uuidCheck`, `validateCPU`, `validateRAM` -/

/-- Go `strconv.Atoi` on a 64-bit platform, `none` when it returns an error: an
optional sign `+` or `-`, then at least one byte, all of them decimal digits
(otherwise a syntax error), the value being within `-2^63 .. 2^63 - 1`
(otherwise a range error). -/
def atoi (s : GoString) : Option Int :=
  let neg : Bool := match s with
    | '-' :: _ => true
    | _ => false
  let body : GoString := match s with
    | '+' :: t => t
    | '-' :: t => t
    | _ => s
  if body = [] then none
  else if !(body.all Char.isDigit) then none
  else
    let un := digitsValue body
    if !neg && decide (un ≥ 2 ^ 63) then none
    else if neg && decide (un > 2 ^ 63) then none
    else some (if neg then -((un : Nat) : Int) else ((un : Nat) : Int))

/-- Method `uuidCheck`; `fresh` is what `uuid.NewV4().String()` returns in this
run. -/
def uuidCheck (env : Session) (fresh : GoString) (vm : VMInfo) (xxid : GoString) : VMInfo :=
  if xxid = "random".toList then { vm with UUID := fresh }
  else if !(env.uuidParses xxid) then { vm with UUID := fresh }
  else { vm with UUID := xxid }

/-- Method `validateCPU`. -/
def validateCPU (vm : VMInfo) (cores : GoString) : VMInfo :=
  let cores := if (atoi cores).isNone then "1".toList else cores
  { vm with Cpus := cores }

/-- Method `validateRAM`. -/
def validateRAM (vm : VMInfo) (ram : GoString) : VMInfo :=
  let ram :=
    match atoi ram with
    | none => "1024".toList
    | some v => if v < 1024 then "1024".toList else ram
  { vm with Memory := ram }

/-! ## `etcExports` -/

/-- Go `bytes.Replace(s, old, new, -1)` for a non-empty `old`: the occurrences
of `old` are looked for from the left and do not overlap.  The counter is the
number of bytes of `s` still to skip because they belong to the occurrence just
replaced. -/
def replaceGo (old new : GoString) : Nat → GoString → GoString
  | _, [] => []
  | skip + 1, _ :: cs => replaceGo old new skip cs
  | 0, c :: cs =>
    if old.isPrefixOf (c :: cs) then new ++ replaceGo old new (old.length - 1) cs
    else c :: replaceGo old new 0 cs

/-- The struct `etcExports`. -/
structure etcExports where
  restart : Bool
  shared : Bool
  exports : GoString
  signature : GoString
  buf : GoString
  deriving DecidableEq

/-- The loop of `init` over the lines: true as soon as a line is the signature. -/
def hasSignatureLine (signature : GoString) : List GoString → Bool
  | [] => false
  | lc :: rest => if lc = signature then true else hasSignatureLine signature rest

/-- Method `init`.  The exports file is given by what `ioutil.ReadFile` would
return: `none` when it returns an error, otherwise the content. -/
def etcExports.init (env : Session) (file : Option GoString) : Except Fatal etcExports :=
  match file with
  | none => Except.error (Fatal.readFailed "/etc/exports".toList)
  | some buf =>
    let signature := "/Users ".toList ++ "-network 192.168.64.0 -mask 255.255.255.0".toList ++
      " -alldirs -mapall=".toList ++ env.uid ++ ":".toList ++ env.gid
    let lines := split '\n' buf
    Except.ok { exports := "/etc/exports".toList, buf := buf, signature := signature,
                restart := false, shared := hasSignatureLine signature lines }

/-- State after a call of `share` or of `unshare`: the exports file, and the
fatal error if the call ended the process. -/
structure ExportsOutcome where
  file : Option GoString
  fatal : Option Fatal
  deriving DecidableEq

/-- Method `reload`, after which the exports file is `file`. -/
def etcExports.reload (env : Session) (file : Option GoString) : ExportsOutcome :=
  if env.nfsdRestartOk then { file := file, fatal := none }
  else { file := file, fatal := some Fatal.nfsdRestartFailed }

/-- Method `share`, on the exports file `file`.  `ioutil.WriteFile` replaces the
content of the file; the source drops its error, so a write that fails leaves
the file as it was and the method goes on. -/
def etcExports.share (env : Session) (file : Option GoString) : ExportsOutcome :=
  match etcExports.init env file with
  | Except.error e => { file := file, fatal := some e }
  | Except.ok f =>
    if !f.shared then
      let written := if env.writeFileOk f.exports then
        some (f.buf ++ ("\n".toList ++ (f.signature ++ "\n".toList))) else file
      etcExports.reload env written
    else { file := file, fatal := none }

/-- Method `unshare`, on the exports file `file`. -/
def etcExports.unshare (env : Session) (file : Option GoString) : ExportsOutcome :=
  match etcExports.init env file with
  | Except.error e => { file := file, fatal := some e }
  | Except.ok f =>
    if f.shared then
      let written := if env.writeFileOk f.exports then
        some (replaceGo (("\n".toList ++ f.signature) ++ "\n".toList) [] 0 f.buf) else file
      etcExports.reload env written
    else { file := file, fatal := none }

/-- The signature line of the session, as `init` computes it. -/
def exportsSignature (env : Session) : GoString :=
  "/Users -network 192.168.64.0 -mask 255.255.255.0 -alldirs -mapall=".toList ++ env.uid ++
    ":".toList ++ env.gid

/-- Number of lines of a file content that are equal to `signature`. -/
def countSignatureLines (signature : GoString) (content : GoString) : Nat :=
  (split '\n' content).count signature

/-- The network token `tap<d>`. -/
def tapToken (d : Char) : GoString := "tap".toList ++ [d]

/-- The token is exactly `tap` followed by one digit. -/
def isTapToken (t : GoString) : Bool :=
  match t with
  | ['t', 'a', 'p', d] => d.isDigit
  | _ => false

/-! # Properties -/

/-! ## Decimal keys are injective -/

theorem digitChar_spec (m : Nat) (h : m < 10) :
    (Nat.digitChar m).toNat - 48 = m ∧ (Nat.digitChar m).isDigit = true := by
  interval_cases m <;> decide

theorem digitsValue_append_single (l : GoString) (c : Char) :
    digitsValue (l ++ [c]) = 10 * digitsValue l + (c.toNat - 48) := by
  simp [digitsValue, List.foldl_append]

theorem toDigitsCore_spec : ∀ (fuel n : Nat) (ds : List Char), n < fuel →
    ∃ l : List Char, Nat.toDigitsCore 10 fuel n ds = l ++ ds ∧ digitsValue l = n ∧
      (∀ c ∈ l, c.isDigit = true) ∧ l ≠ [] := by
  intro fuel
  induction fuel with
  | zero => intro n ds h; omega
  | succ f ih =>
    intro n ds h
    have hd := digitChar_spec (n % 10) (Nat.mod_lt _ (by decide))
    by_cases h0 : n / 10 = 0
    · refine ⟨[Nat.digitChar (n % 10)], ?_, ?_, ?_, by simp⟩
      · simp [Nat.toDigitsCore, h0]
      · have : digitsValue [Nat.digitChar (n % 10)] = (Nat.digitChar (n % 10)).toNat - 48 := by
          simp [digitsValue]
        rw [this, hd.1]; omega
      · intro c hc
        simp at hc
        rw [hc]; exact hd.2
    · have hlt : n / 10 < f := by omega
      obtain ⟨l, hl, hv, hall, _⟩ := ih (n / 10) (Nat.digitChar (n % 10) :: ds) hlt
      refine ⟨l ++ [Nat.digitChar (n % 10)], ?_, ?_, ?_, by simp⟩
      · simp [Nat.toDigitsCore, h0, hl]
      · rw [digitsValue_append_single, hv, hd.1]; omega
      · intro c hc
        rcases List.mem_append.mp hc with hc | hc
        · exact hall c hc
        · simp at hc
          rw [hc]; exact hd.2

theorem toDigits_spec (n : Nat) :
    digitsValue (Nat.toDigits 10 n) = n ∧ (∀ c ∈ Nat.toDigits 10 n, c.isDigit = true) ∧
      Nat.toDigits 10 n ≠ [] := by
  obtain ⟨l, hl, hv, hall, hne⟩ := toDigitsCore_spec (n + 1) n [] (by omega)
  have : Nat.toDigits 10 n = l := by simpa [Nat.toDigits] using hl
  rw [this]; exact ⟨hv, hall, hne⟩

theorem parseInt_itoa (i : Int) : parseInt (itoa i) = i := by
  cases i with
  | ofNat n =>
    obtain ⟨hv, hall, hne⟩ := toDigits_spec n
    simp only [itoa]
    cases hds : Nat.toDigits 10 n with
    | nil => exact absurd hds hne
    | cons c t =>
      have hc : c.isDigit = true := hall c (by rw [hds]; simp)
      have hminus : c ≠ '-' := by
        intro h; rw [h] at hc; revert hc; decide
      simp only [parseInt, hminus, if_false]
      rw [← hds, hv]; rfl
  | negSucc n =>
    obtain ⟨hv, _, _⟩ := toDigits_spec (n + 1)
    simp only [itoa, parseInt, if_true, hv]
    rfl

theorem itoa_injective {a b : Int} (h : itoa a = itoa b) : a = b := by
  have := congrArg parseInt h
  simpa [parseInt_itoa] using this

/-! ## Maps: lookups after an assignment -/

theorem GoMap.get?_set {V : Type} (m : GoMap V) (k : GoString) (v : V) (k1 : GoString) :
    (m.set k v).get? k1 = if k = k1 then some v else m.get? k1 := by
  induction m with
  | nil => simp [GoMap.set, GoMap.get?]
  | cons e rest ih =>
    obtain ⟨ke, ve⟩ := e
    by_cases h : ke = k
    · subst h
      by_cases h1 : ke = k1 <;> simp [GoMap.set, GoMap.get?, h1]
    · by_cases h1 : ke = k1
      · subst h1
        have : ¬ k = ke := fun hh => h hh.symm
        simp [GoMap.set, GoMap.get?, h, this]
      · simp [GoMap.set, GoMap.get?, h, h1, ih]

theorem GoMap.has_set {V : Type} (m : GoMap V) (k : GoString) (v : V) (k1 : GoString) :
    (m.set k v).has k1 = (decide (k = k1) || m.has k1) := by
  unfold GoMap.has
  rw [GoMap.get?_set]
  by_cases h : k = k1 <;> simp [h]

theorem GoMap.mem_set {V : Type} (m : GoMap V) (k : GoString) (v : V) (e : GoString × V)
    (h : e ∈ m.set k v) : e ∈ m ∨ e = (k, v) := by
  induction m with
  | nil => simp [GoMap.set] at h; exact Or.inr h
  | cons e1 rest ih =>
    obtain ⟨ke, ve⟩ := e1
    by_cases hk : ke = k
    · simp [GoMap.set, hk] at h
      rcases h with h | h
      · exact Or.inr h
      · exact Or.inl (List.mem_cons_of_mem _ h)
    · simp only [GoMap.set, hk, if_false, List.mem_cons] at h
      rcases h with h | h
      · exact Or.inl (by rw [h]; exact List.mem_cons_self _ _)
      · rcases ih h with h2 | h2
        · exact Or.inl (List.mem_cons_of_mem _ h2)
        · exact Or.inr h2

theorem GoMap.has_iff_mem {V : Type} (m : GoMap V) (k : GoString) :
    m.has k = true ↔ ∃ e ∈ m, e.1 = k := by
  induction m with
  | nil =>
    constructor
    · intro h; simp [GoMap.has, GoMap.get?] at h
    · rintro ⟨e, he, _⟩; cases he
  | cons e1 rest ih =>
    obtain ⟨ke, ve⟩ := e1
    by_cases hk : ke = k
    · constructor
      · intro _; exact ⟨(ke, ve), List.mem_cons_self _ _, hk⟩
      · intro _; simp [GoMap.has, GoMap.get?, hk]
    · have hrest : (GoMap.has ((ke, ve) :: rest) k) = GoMap.has rest k := by
        simp [GoMap.has, GoMap.get?, hk]
      rw [hrest, ih]
      constructor
      · rintro ⟨e, he, hek⟩; exact ⟨e, List.mem_cons_of_mem _ he, hek⟩
      · rintro ⟨e, he, hek⟩
        rcases List.mem_cons.mp he with h1 | h1
        · subst h1; exact absurd hek hk
        · exact ⟨e, h1, hek⟩

theorem GoMap.set_of_not_has {V : Type} (m : GoMap V) (k : GoString) (v : V)
    (h : m.has k = false) : m.set k v = m ++ [(k, v)] := by
  induction m with
  | nil => simp [GoMap.set]
  | cons e1 rest ih =>
    obtain ⟨ke, ve⟩ := e1
    by_cases hk : ke = k
    · simp [GoMap.has, GoMap.get?, hk] at h
    · have h2 : GoMap.has rest k = false := by
        simpa [GoMap.has, GoMap.get?, hk] using h
      simp [GoMap.set, hk, ih h2]

theorem nicStep_eq (vm : VMInfo) (j : GoString) :
    nicStep vm j =
      match nicParse j with
      | Except.error e => Except.error e
      | Except.ok none => Except.ok vm
      | Except.ok (some slot) =>
        match insertSlot vm.Network.Raw slot
            { Typ := NetworkType.Raw, Slot := slot } j with
        | Except.error e => Except.error e
        | Except.ok m => Except.ok { vm with Network := { vm.Network with Raw := m } } := by
  unfold nicStep nicParse
  by_cases h0 : j.length > 0
  · simp only [h0, if_true]
    cases h1 : hasPrefix j "eth".toList
    · simp only [Bool.false_eq_true, if_false]
      cases h2 : hasPrefix j "tap".toList
      · simp only [Bool.false_eq_true, if_false]
      · simp only [if_true]
        cases h3 : matchLitClassEnd "tap".toList Char.isDigit j <;> simp
    · simp only [if_true]
      cases h2 : matchLitClassEnd "eth".toList Char.isDigit j
      · simp
      · simp only [Bool.not_true, Bool.false_eq_true, if_false]
        cases h3 : j.getLast? with
        | none => rfl
        | some b =>
          simp only [insertSlot]
          cases h4 : GoMap.has vm.Network.Raw (itoa (atoiByte b))
          · simp only [Bool.false_eq_true, if_false]
            cases h5 : (atoiByte b == 0 || GoMap.has vm.Network.Raw (itoa (atoiByte b - 1)))
            · simp
            · simp
          · simp
  · simp only [h0, if_false]

theorem volumeStep_eq (env : Session) (vm : VMInfo) (j : GoString) :
    volumeStep env vm j =
      match volumeParse env.statOk j with
      | Except.error e => Except.error e
      | Except.ok none => Except.ok vm
      | Except.ok (some (StorageType.HDD, slot, tag, path)) =>
        match insertSlot vm.Storage.HardDrives slot
            { Typ := StorageType.HDD, Slot := slot, Path := env.joinPath env.pwd path } tag with
        | Except.error e => Except.error e
        | Except.ok m => Except.ok { vm with Storage := { vm.Storage with HardDrives := m } }
      | Except.ok (some (StorageType.CDROM, slot, tag, path)) =>
        match insertSlot vm.Storage.CDDrives slot
            { Typ := StorageType.CDROM, Slot := slot, Path := env.joinPath env.pwd path } tag with
        | Except.error e => Except.error e
        | Except.ok m => Except.ok { vm with Storage := { vm.Storage with CDDrives := m } } := by
  unfold volumeStep volumeParse
  by_cases h0 : j.length > 0
  · simp only [h0, if_true]
    split
    · rename_i arr0 arr1 _
      cases hs : env.statOk arr1
      · simp
      · simp only [Bool.not_true, Bool.false_eq_true, if_false]
        cases h1 : hasPrefix arr0 "vd".toList
        · simp only [Bool.false_eq_true, if_false]
          cases h2 : hasPrefix arr0 "cdrom".toList
          · simp only [Bool.false_eq_true, if_false]
          · simp only [if_true]
            cases h3 : matchLitClassEnd "cdrom".toList Char.isDigit arr0
            · simp
            · simp only [Bool.not_true, Bool.false_eq_true, if_false]
              cases h4 : arr0.getLast? with
              | none => rfl
              | some b =>
                simp only [insertSlot]
                cases h5 : GoMap.has vm.Storage.CDDrives (itoa (atoiByte b))
                · simp only [Bool.false_eq_true, if_false]
                  cases h6 : (atoiByte b == 0 ||
                    GoMap.has vm.Storage.CDDrives (itoa (atoiByte b - 1))) <;> simp
                · simp
        · simp only [if_true]
          cases h3 : matchLitClassEnd "vd".toList Char.isLower arr0
          · simp
          · simp only [Bool.not_true, Bool.false_eq_true, if_false]
            cases h4 : arr0.get? 2 with
            | none => rfl
            | some b =>
              simp only [insertSlot]
              cases h5 : GoMap.has vm.Storage.HardDrives (itoa (byteSub b 'a'))
              · simp only [Bool.false_eq_true, if_false]
                cases h6 : (byteSub b 'a' == 0 ||
                  GoMap.has vm.Storage.HardDrives (itoa (byteSub b 'a' - 1))) <;> simp
              · simp
    · rfl
  · simp only [h0, if_false]

/-! ## Slot insertion on a gapless table -/

theorem insertSlot_cases {V : Type} (m : GoMap V) (slot : Int) (v : V) (tag : GoString) :
    (∃ e, insertSlot m slot v tag = Except.error e) ∨
      (m.has (itoa slot) = false ∧ (slot = 0 ∨ m.has (itoa (slot - 1)) = true) ∧
        insertSlot m slot v tag = Except.ok (m ++ [(itoa slot, v)])) := by
  unfold insertSlot
  cases h1 : m.has (itoa slot)
  · cases h2 : (slot == 0 || m.has (itoa (slot - 1)))
    · left; exact ⟨Fatal.slotNotPopulated slot, by simp [h2]⟩
    · right
      refine ⟨rfl, ?_, ?_⟩
      · simpa using h2
      · simp [h2, GoMap.set_of_not_has m _ v h1]
  · left; exact ⟨Fatal.defineTwice tag, by simp⟩

theorem GaplessTo.has_lt {V : Type} {slotOf : V → Int} {k : Nat} {m : GoMap V}
    (h : GaplessTo slotOf k m) (i : Nat) (hi : i < k) : m.has (itoa i) = true := by
  have := h.2 i hi
  unfold GoMap.has
  cases hg : m.get? (itoa i) with
  | none => rw [hg] at this; simp at this
  | some v => rfl

theorem GaplessTo.has_iff {V : Type} {slotOf : V → Int} {k : Nat} {m : GoMap V}
    (h : GaplessTo slotOf k m) (s : Int) :
    m.has (itoa s) = true ↔ ∃ i : Nat, i < k ∧ s = i := by
  constructor
  · intro hs
    obtain ⟨e, he, hek⟩ := (GoMap.has_iff_mem m _).mp hs
    obtain ⟨i, hi, hei⟩ := h.1 e he
    exact ⟨i, hi, itoa_injective (by rw [← hek, hei])⟩
  · rintro ⟨i, hi, rfl⟩
    exact h.has_lt i hi

theorem GaplessTo.nil {V : Type} (slotOf : V → Int) : GaplessTo slotOf 0 ([] : GoMap V) := by
  constructor
  · intro e he; cases he
  · intro i hi; omega

theorem GaplessTo.snoc {V : Type} {slotOf : V → Int} {k : Nat} {m : GoMap V}
    (h : GaplessTo slotOf k m) (v : V) (hv : slotOf v = k) :
    GaplessTo slotOf (k + 1) (m ++ [(itoa k, v)]) := by
  have hno : m.has (itoa k) = false := by
    cases hh : m.has (itoa k) with
    | false => rfl
    | true =>
      obtain ⟨i, hi, hki⟩ := (h.has_iff k).mp hh
      have : k = i := by exact_mod_cast hki
      omega
  have hset := GoMap.set_of_not_has m (itoa k) v hno
  constructor
  · intro e he
    rcases List.mem_append.mp he with he | he
    · obtain ⟨i, hi, hei⟩ := h.1 e he
      exact ⟨i, by omega, hei⟩
    · simp at he
      exact ⟨k, by omega, by rw [he]⟩
  · intro i hi
    rw [← hset, GoMap.get?_set]
    by_cases hik : i = k
    · subst hik; simp [hv]
    · have hne : ¬ itoa (k : Int) = itoa (i : Int) := by
        intro hh
        have := itoa_injective hh
        have : k = i := by exact_mod_cast this
        omega
      simp only [hne, if_false]
      exact h.2 i (by omega)

theorem insertSlot_gapless {V : Type} {slotOf : V → Int} {k : Nat} {m : GoMap V}
    (h : GaplessTo slotOf k m) (slot : Int) (v : V) (tag : GoString) :
    (slot = k → insertSlot m slot v tag = Except.ok (m ++ [(itoa slot, v)])) ∧
      (slot ≠ k → ∃ e, insertSlot m slot v tag = Except.error e) := by
  constructor
  · intro hs
    subst hs
    have h1 : m.has (itoa (k : Int)) = false := by
      cases hh : m.has (itoa k) with
      | false => rfl
      | true =>
        obtain ⟨i, hi, hki⟩ := (h.has_iff k).mp hh
        have : k = i := by exact_mod_cast hki
        omega
    have h2 : ((k : Int) == 0 || m.has (itoa ((k : Int) - 1))) = true := by
      cases k with
      | zero => simp
      | succ n =>
        have : ((n + 1 : Nat) : Int) - 1 = (n : Int) := by push_cast; ring
        rw [this, h.has_lt n (by omega)]
        simp
    unfold insertSlot
    simp [h1, h2, GoMap.set_of_not_has m _ v h1]
  · intro hs
    rcases insertSlot_cases m slot v tag with he | ⟨h1, h2, _⟩
    · exact he
    · exfalso
      apply hs
      have hnot : ∀ i : Nat, i < k → slot ≠ i := by
        intro i hi hsi
        have := h.has_lt i hi
        rw [← hsi, h1] at this
        exact Bool.noConfusion this
      rcases h2 with h0 | hp
      · cases k with
        | zero => simpa using h0
        | succ n => exact absurd h0 (hnot 0 (by omega))
      · obtain ⟨i, hi, hsi⟩ := (h.has_iff _).mp hp
        have hsi1 : slot = ((i + 1 : Nat) : Int) := by push_cast; omega
        by_cases hik : i + 1 < k
        · exact absurd hsi1 (hnot (i + 1) hik)
        · have : i + 1 = k := by omega
          rw [hsi1, this]

theorem insertSlot_preserves {V : Type} {slotOf : V → Int} {m m1 : GoMap V}
    (h : Gapless slotOf m) (slot : Int) (v : V) (tag : GoString) (hv : slotOf v = slot)
    (hins : insertSlot m slot v tag = Except.ok m1) : Gapless slotOf m1 := by
  obtain ⟨k, hk⟩ := h
  by_cases hs : slot = k
  · have := (insertSlot_gapless hk slot v tag).1 hs
    rw [this] at hins
    cases hins
    rw [hs]
    exact ⟨k + 1, hk.snoc v (by rw [hv, hs])⟩
  · obtain ⟨e, he⟩ := (insertSlot_gapless hk slot v tag).2 hs
    rw [he] at hins
    cases hins

theorem nicStep_gapless (vm vm1 : VMInfo) (j : GoString) (h : SlotTablesGapless vm)
    (hstep : nicStep vm j = Except.ok vm1) : SlotTablesGapless vm1 := by
  rw [nicStep_eq] at hstep
  cases hp : nicParse j with
  | error e => rw [hp] at hstep; cases hstep
  | ok r =>
    cases r with
    | none => rw [hp] at hstep; cases hstep; exact h
    | some slot =>
      rw [hp] at hstep
      simp only at hstep
      cases hi : insertSlot vm.Network.Raw slot { Typ := NetworkType.Raw, Slot := slot } j with
      | error e => rw [hi] at hstep; cases hstep
      | ok m =>
        rw [hi] at hstep
        cases hstep
        exact ⟨insertSlot_preserves h.1 slot _ j rfl hi, h.2.1, h.2.2⟩

theorem volumeStep_gapless (env : Session) (vm vm1 : VMInfo) (j : GoString)
    (h : SlotTablesGapless vm) (hstep : volumeStep env vm j = Except.ok vm1) :
    SlotTablesGapless vm1 := by
  rw [volumeStep_eq] at hstep
  cases hp : volumeParse env.statOk j with
  | error e => rw [hp] at hstep; cases hstep
  | ok r =>
    cases r with
    | none => rw [hp] at hstep; cases hstep; exact h
    | some q =>
      obtain ⟨cls, slot, tag, path⟩ := q
      rw [hp] at hstep
      cases cls with
      | HDD =>
        simp only at hstep
        cases hi : insertSlot vm.Storage.HardDrives slot
            { Typ := StorageType.HDD, Slot := slot, Path := env.joinPath env.pwd path } tag with
        | error e => rw [hi] at hstep; cases hstep
        | ok m =>
          rw [hi] at hstep
          cases hstep
          exact ⟨h.1, insertSlot_preserves h.2.1 slot _ tag rfl hi, h.2.2⟩
      | CDROM =>
        simp only at hstep
        cases hi : insertSlot vm.Storage.CDDrives slot
            { Typ := StorageType.CDROM, Slot := slot, Path := env.joinPath env.pwd path } tag with
        | error e => rw [hi] at hstep; cases hstep
        | ok m =>
          rw [hi] at hstep
          cases hstep
          exact ⟨h.1, h.2.1, insertSlot_preserves h.2.2 slot _ tag rfl hi⟩

theorem validateNetworkInterfaces_gapless (toks : List GoString) :
    ∀ vm vm1 : VMInfo, SlotTablesGapless vm →
      validateNetworkInterfaces vm toks = Except.ok vm1 → SlotTablesGapless vm1 := by
  induction toks with
  | nil => intro vm vm1 h hrun; simp [validateNetworkInterfaces] at hrun; rw [← hrun]; exact h
  | cons j rest ih =>
    intro vm vm1 h hrun
    simp only [validateNetworkInterfaces] at hrun
    cases hs : nicStep vm j with
    | error e => rw [hs] at hrun; cases hrun
    | ok vm2 =>
      rw [hs] at hrun
      exact ih vm2 vm1 (nicStep_gapless vm vm2 j h hs) hrun

theorem validateVolumes_gapless (env : Session) (toks : List GoString) :
    ∀ vm vm1 : VMInfo, SlotTablesGapless vm →
      validateVolumes env vm toks = Except.ok vm1 → SlotTablesGapless vm1 := by
  induction toks with
  | nil => intro vm vm1 h hrun; simp [validateVolumes] at hrun; rw [← hrun]; exact h
  | cons j rest ih =>
    intro vm vm1 h hrun
    simp only [validateVolumes] at hrun
    cases hs : volumeStep env vm j with
    | error e => rw [hs] at hrun; cases hrun
    | ok vm2 =>
      rw [hs] at hrun
      exact ih vm2 vm1 (volumeStep_gapless env vm vm2 j h hs) hrun

theorem SlotTablesGapless.empty : SlotTablesGapless VMInfo.empty :=
  ⟨⟨0, GaplessTo.nil _⟩, ⟨0, GaplessTo.nil _⟩, ⟨0, GaplessTo.nil _⟩⟩

/-- C2. Gapless-slot invariant: when the three slot tables of a descriptor
(`Network.Raw`, `Storage.HardDrives`, `Storage.CDDrives`) each have the keys
`"0"`, ..., `"k-1"` for some `k` (possibly 0), the entry under key `i` having slot
`i`, then after every run of `validateVolumes` or of `validateNetworkInterfaces`
that does not end in a fatal error, on any list of tokens, the three tables again
have that shape.  A single insertion is the run on a one-token list. -/
theorem gapless_invariant (env : Session) (vm vm1 : VMInfo) (toks : List GoString)
    (h : SlotTablesGapless vm)
    (hrun : validateVolumes env vm toks = Except.ok vm1 ∨
      validateNetworkInterfaces vm toks = Except.ok vm1) :
    SlotTablesGapless vm1 := by
  rcases hrun with hrun | hrun
  · exact validateVolumes_gapless env toks vm vm1 h hrun
  · exact validateNetworkInterfaces_gapless toks vm vm1 h hrun

theorem gapless_invariant_witness :
    SlotTablesGapless VMInfo.empty ∧
      validateVolumes Session.demo VMInfo.empty ["vda@p".toList] =
        Except.ok { VMInfo.empty with Storage := {
          HardDrives := [("0".toList,
            { Typ := StorageType.HDD, Slot := 0, Path := "/w/p".toList })],
          CDDrives := [] } } ∧
      SlotTablesGapless
        { VMInfo.empty with Storage := {
            HardDrives := [("0".toList,
              { Typ := StorageType.HDD, Slot := 0, Path := "/w/p".toList })],
            CDDrives := [] } } :=
  ⟨SlotTablesGapless.empty, by decide,
    gapless_invariant Session.demo VMInfo.empty _ ["vda@p".toList] SlotTablesGapless.empty
      (Or.inl (by decide))⟩

theorem isLower_bounds (c : Char) (h : c.isLower = true) : 97 ≤ c.toNat ∧ c.toNat ≤ 122 := by
  simp only [Char.isLower, Bool.and_eq_true, decide_eq_true_eq] at h
  obtain ⟨h1, h2⟩ := h
  rw [ge_iff_le, UInt32.le_def] at h1
  rw [UInt32.le_def] at h2
  exact ⟨h1, h2⟩

theorem isDigit_bounds (c : Char) (h : c.isDigit = true) : 48 ≤ c.toNat ∧ c.toNat ≤ 57 := by
  simp only [Char.isDigit, Bool.and_eq_true, decide_eq_true_eq] at h
  obtain ⟨h1, h2⟩ := h
  rw [ge_iff_le, UInt32.le_def] at h1
  rw [UInt32.le_def] at h2
  exact ⟨h1, h2⟩

theorem ne_at_of_toNat (c : Char) (h : c.toNat ≠ 64) : c ≠ '@' := by
  intro hc; rw [hc] at h; exact h (by decide)

theorem split_no_sep (sep : Char) (s : GoString) (h : sep ∉ s) : split sep s = [s] := by
  induction s with
  | nil => rfl
  | cons c cs ih =>
    have hc : c ≠ sep := fun hh => h (by rw [hh]; exact List.mem_cons_self _ _)
    have hcs : sep ∉ cs := fun hh => h (List.mem_cons_of_mem _ hh)
    simp [split, hc, ih hcs]

theorem byteSub_lower (c : Char) (h : c.isLower = true) :
    byteSub c 'a' = ((c.toNat - 97 : Nat) : Int) := by
  obtain ⟨h1, h2⟩ := isLower_bounds c h
  have ha : ('a' : Char).toNat = 97 := by decide
  unfold byteSub
  rw [ha]
  congr 1
  omega

theorem atoiByte_digit (c : Char) (h : c.isDigit = true) :
    atoiByte c = ((c.toNat - 48 : Nat) : Int) := by
  simp [atoiByte, h]

theorem volumeParse_vd (statOk : GoString → Bool) (c : Char) (path : GoString)
    (hc : c.isLower = true) (hp : '@' ∉ path) :
    volumeParse statOk (VolumeSpec.token (VolumeSpec.vd c path)) =
      if statOk path then
        Except.ok (some (StorageType.HDD, ((c.toNat - 97 : Nat) : Int), "vd".toList ++ [c], path))
      else Except.error (Fatal.notAValidPath path) := by
  have hb := isLower_bounds c hc
  have hne : c ≠ '@' := ne_at_of_toNat c (by omega)
  have hsplit : split '@' (VolumeSpec.token (VolumeSpec.vd c path)) =
      ["vd".toList ++ [c], path] := by
    simp [VolumeSpec.token, split, hne, split_no_sep '@' path hp]
  have hlen : (VolumeSpec.token (VolumeSpec.vd c path)).length > 0 := by
    simp [VolumeSpec.token]
  unfold volumeParse
  simp only [hlen, if_true, hsplit]
  cases hs : statOk path
  · simp
  · have h1 : hasPrefix ("vd".toList ++ [c]) "vd".toList = true := by
      simp [hasPrefix]
    have h2 : matchLitClassEnd "vd".toList Char.isLower ("vd".toList ++ [c]) = true := by
      simp [matchLitClassEnd, hc]
    have h3 : ("vd".toList ++ [c]).get? 2 = some c := by simp
    simp only [Bool.not_true, Bool.false_eq_true, if_false, h1, h2, if_true, h3,
      byteSub_lower c hc]

theorem volumeParse_cdrom (statOk : GoString → Bool) (d : Char) (path : GoString)
    (hd : d.isDigit = true) (hp : '@' ∉ path) :
    volumeParse statOk (VolumeSpec.token (VolumeSpec.cdrom d path)) =
      if statOk path then
        Except.ok (some (StorageType.CDROM, ((d.toNat - 48 : Nat) : Int),
          "cdrom".toList ++ [d], path))
      else Except.error (Fatal.notAValidPath path) := by
  have hb := isDigit_bounds d hd
  have hne : d ≠ '@' := ne_at_of_toNat d (by omega)
  have hsplit : split '@' (VolumeSpec.token (VolumeSpec.cdrom d path)) =
      ["cdrom".toList ++ [d], path] := by
    simp [VolumeSpec.token, split, hne, split_no_sep '@' path hp]
  have hlen : (VolumeSpec.token (VolumeSpec.cdrom d path)).length > 0 := by
    simp [VolumeSpec.token]
  unfold volumeParse
  simp only [hlen, if_true, hsplit]
  cases hs : statOk path
  · simp
  · have h0 : hasPrefix ("cdrom".toList ++ [d]) "vd".toList = false := by
      simp [hasPrefix, List.isPrefixOf]
    have h1 : hasPrefix ("cdrom".toList ++ [d]) "cdrom".toList = true := by
      simp [hasPrefix]
    have h2 : matchLitClassEnd "cdrom".toList Char.isDigit ("cdrom".toList ++ [d]) = true := by
      simp [matchLitClassEnd, hd]
    have h3 : ("cdrom".toList ++ [d]).getLast? = some d := by simp
    simp only [Bool.not_true, Bool.false_eq_true, if_false, h0, h1, h2, if_true, h3,
      atoiByte_digit d hd]

theorem validateVolumes_specs (env : Session) (specs : List VolumeSpec) :
    ∀ (a b : Nat) (vm : VMInfo), (∀ s ∈ specs, s.WellFormed env.statOk) →
      GaplessTo StorageDevice.Slot a vm.Storage.HardDrives →
      GaplessTo StorageDevice.Slot b vm.Storage.CDDrives →
      (isFatal (validateVolumes env vm (specs.map VolumeSpec.token)) = false ↔
        hdSlots specs = List.range' a (hdSlots specs).length ∧
        cdSlots specs = List.range' b (cdSlots specs).length) := by
  induction specs with
  | nil =>
    intro a b vm _ _ _
    simp [validateVolumes, isFatal, hdSlots, cdSlots]
  | cons s rest ih =>
    intro a b vm hall ha hb
    have hrest : ∀ s ∈ rest, s.WellFormed env.statOk :=
      fun s hs => hall s (List.mem_cons_of_mem _ hs)
    have hwf := hall s (List.mem_cons_self _ _)
    cases s with
    | vd c path =>
      obtain ⟨hc, hp, hst⟩ := hwf
      simp only [List.map, validateVolumes]
      rw [volumeStep_eq, volumeParse_vd _ c path hc hp, hst]
      simp only [if_true]
      by_cases hs : ((c.toNat - 97 : Nat) : Int) = a
      · rw [(insertSlot_gapless ha _ _ _).1 hs]
        simp only
        have hs1 : c.toNat - 97 = a := by exact_mod_cast hs
        refine Iff.trans (ih (a + 1) b _ hrest ?_ hb) ?_
        · simp only [hs1]
          exact ha.snoc _ rfl
        · simp [hdSlots, cdSlots, List.range', hs1]
      · obtain ⟨e, he⟩ := (insertSlot_gapless ha _
          { Typ := StorageType.HDD, Slot := ((c.toNat - 97 : Nat) : Int),
            Path := env.joinPath env.pwd path } ("vd".toList ++ [c])).2 hs
        rw [he]
        have hs1 : ¬ c.toNat - 97 = a := fun hh => hs (by rw [hh])
        simp [isFatal, hdSlots, List.range', hs1]
    | cdrom d path =>
      obtain ⟨hd, hp, hst⟩ := hwf
      simp only [List.map, validateVolumes]
      rw [volumeStep_eq, volumeParse_cdrom _ d path hd hp, hst]
      simp only [if_true]
      by_cases hs : ((d.toNat - 48 : Nat) : Int) = b
      · rw [(insertSlot_gapless hb _ _ _).1 hs]
        simp only
        have hs1 : d.toNat - 48 = b := by exact_mod_cast hs
        refine Iff.trans (ih a (b + 1) _ hrest ha ?_) ?_
        · simp only [hs1]
          exact hb.snoc _ rfl
        · simp [hdSlots, cdSlots, List.range', hs1]
      · obtain ⟨e, he⟩ := (insertSlot_gapless hb _
          { Typ := StorageType.CDROM, Slot := ((d.toNat - 48 : Nat) : Int),
            Path := env.joinPath env.pwd path } ("cdrom".toList ++ [d])).2 hs
        rw [he]
        have hs1 : ¬ d.toNat - 48 = b := fun hh => hs (by rw [hh])
        simp [isFatal, cdSlots, List.range', hs1]

/-- C1. For every list of storage specifiers that are each exactly `vd<a-z>@<path>`
or `cdrom<0-9>@<path>` with an existing path that contains no `@`, `validateVolumes`
started on a descriptor whose storage tables are empty finishes without a fatal
error if and only if the hard-drive slots taken in declaration order are exactly
`0, 1, ..., k-1` and, independently, the CD slots taken in declaration order are
exactly `0, 1, ..., l-1`. -/
theorem validateVolumes_succeeds_iff_in_order (env : Session) (vm : VMInfo)
    (specs : List VolumeSpec)
    (hempty : vm.Storage.HardDrives = [] ∧ vm.Storage.CDDrives = [])
    (hwf : ∀ s ∈ specs, s.WellFormed env.statOk) :
    isFatal (validateVolumes env vm (specs.map VolumeSpec.token)) = false ↔
      hdSlots specs = List.range (hdSlots specs).length ∧
      cdSlots specs = List.range (cdSlots specs).length := by
  rw [validateVolumes_specs env specs 0 0 vm hwf
    (by rw [hempty.1]; exact GaplessTo.nil _) (by rw [hempty.2]; exact GaplessTo.nil _)]
  simp [List.range_eq_range']

theorem validateVolumes_succeeds_iff_in_order_witness :
    (isFatal (validateVolumes Session.demo VMInfo.empty
        ([VolumeSpec.vd 'b' "p".toList, VolumeSpec.vd 'a' "p".toList].map VolumeSpec.token))
      = false ↔
      hdSlots [VolumeSpec.vd 'b' "p".toList, VolumeSpec.vd 'a' "p".toList] =
        List.range (hdSlots [VolumeSpec.vd 'b' "p".toList, VolumeSpec.vd 'a' "p".toList]).length ∧
      cdSlots [VolumeSpec.vd 'b' "p".toList, VolumeSpec.vd 'a' "p".toList] =
        List.range (cdSlots [VolumeSpec.vd 'b' "p".toList, VolumeSpec.vd 'a' "p".toList]).length) ∧
    (isFatal (validateVolumes Session.demo VMInfo.empty
        ([VolumeSpec.cdrom '0' "p".toList, VolumeSpec.vd 'a' "q".toList,
          VolumeSpec.cdrom '1' "p".toList].map VolumeSpec.token)) = false) :=
  ⟨validateVolumes_succeeds_iff_in_order Session.demo VMInfo.empty
      [VolumeSpec.vd 'b' "p".toList, VolumeSpec.vd 'a' "p".toList] ⟨rfl, rfl⟩
      (by
        intro s hs
        simp only [List.mem_cons, List.mem_singleton, List.not_mem_nil, or_false] at hs
        rcases hs with rfl | rfl <;> exact ⟨by decide, by decide, rfl⟩),
    (validateVolumes_succeeds_iff_in_order Session.demo VMInfo.empty
      [VolumeSpec.cdrom '0' "p".toList, VolumeSpec.vd 'a' "q".toList,
        VolumeSpec.cdrom '1' "p".toList] ⟨rfl, rfl⟩
      (by
        intro s hs
        simp only [List.mem_cons, List.mem_singleton, List.not_mem_nil, or_false] at hs
        rcases hs with rfl | rfl | rfl <;> exact ⟨by decide, by decide, rfl⟩)).mpr
      ⟨by decide, by decide⟩⟩

/-! ## Entries are kept, duplicates are fatal -/

theorem insertSlot_ok {V : Type} {m m1 : GoMap V} {slot : Int} {v : V} {tag : GoString}
    (h : insertSlot m slot v tag = Except.ok m1) :
    m.has (itoa slot) = false ∧ m1 = m.set (itoa slot) v := by
  unfold insertSlot at h
  cases h1 : m.has (itoa slot)
  · cases h2 : (slot == 0 || m.has (itoa (slot - 1)))
    · simp [h1, h2] at h
    · simp only [h1, h2, Bool.false_eq_true, if_false, Bool.not_true] at h
      cases h
      exact ⟨rfl, rfl⟩
  · simp [h1] at h

theorem insertSlot_of_has {V : Type} (m : GoMap V) (slot : Int) (v : V) (tag : GoString)
    (h : m.has (itoa slot) = true) :
    insertSlot m slot v tag = Except.error (Fatal.defineTwice tag) := by
  simp [insertSlot, h]

theorem insertSlot_keeps {V : Type} {m m1 : GoMap V} {slot : Int} {v : V} {tag : GoString}
    (h : insertSlot m slot v tag = Except.ok m1) (key : GoString) (v0 : V)
    (hk : m.get? key = some v0) : m1.get? key = some v0 := by
  obtain ⟨hno, hset⟩ := insertSlot_ok h
  rw [hset, GoMap.get?_set]
  have hne : ¬ itoa slot = key := by
    intro hh
    rw [hh] at hno
    simp [GoMap.has, hk] at hno
  simp [hne, hk]

theorem insertSlot_has_new {V : Type} {m m1 : GoMap V} {slot : Int} {v : V} {tag : GoString}
    (h : insertSlot m slot v tag = Except.ok m1) : m1.has (itoa slot) = true := by
  obtain ⟨_, hset⟩ := insertSlot_ok h
  rw [hset, GoMap.has_set]
  simp

theorem GoMap.has_of_keeps {V : Type} {m m1 : GoMap V}
    (h : ∀ key v, m.get? key = some v → m1.get? key = some v) (key : GoString)
    (hk : m.has key = true) : m1.has key = true := by
  unfold GoMap.has at *
  cases hg : m.get? key with
  | none => rw [hg] at hk; simp at hk
  | some v => rw [h key v hg]; rfl

theorem volumeParse_stat (statOk : GoString → Bool) (j : GoString) :
    (∃ e, volumeParse statOk j = Except.error e) ∨
      volumeParse statOk j = volumeParse (fun _ => true) j := by
  unfold volumeParse
  by_cases h0 : j.length > 0
  · simp only [h0, if_true]
    split
    · rename_i arr0 arr1 _
      cases hs : statOk arr1
      · left; exact ⟨Fatal.notAValidPath arr1, by simp⟩
      · right; simp
    · right; rfl
  · right; simp only [h0, if_false]

theorem volumeStep_of_declares (env : Session) (vm : VMInfo) (j : GoString)
    (cls : StorageType) (slot : Int) (h : volumeDeclares j = some (cls, slot)) :
    (∃ e, volumeStep env vm j = Except.error e) ∨
      ∃ (v : StorageDevice) (tag : GoString) (m : GoMap StorageDevice) (vm1 : VMInfo),
        insertSlot (tableOf cls vm) slot v tag = Except.ok m ∧
        volumeStep env vm j = Except.ok vm1 ∧ tableOf cls vm1 = m := by
  rw [volumeStep_eq]
  unfold volumeDeclares at h
  rcases volumeParse_stat env.statOk j with ⟨e, he⟩ | heq
  · left; exact ⟨e, by rw [he]⟩
  · rw [heq]
    cases hp : volumeParse (fun _ => true) j with
    | error e => rw [hp] at h; cases h
    | ok r =>
      rw [hp] at h
      cases r with
      | none => cases h
      | some q =>
        obtain ⟨c, s, tag, path⟩ := q
        simp only [Option.some.injEq, Prod.mk.injEq] at h
        obtain ⟨rfl, rfl⟩ := h
        cases c with
        | HDD =>
          simp only
          cases hi : insertSlot vm.Storage.HardDrives s
              { Typ := StorageType.HDD, Slot := s, Path := env.joinPath env.pwd path } tag with
          | error e => left; exact ⟨e, rfl⟩
          | ok m =>
            right
            exact ⟨_, tag, m, _, hi, rfl, rfl⟩
        | CDROM =>
          simp only
          cases hi : insertSlot vm.Storage.CDDrives s
              { Typ := StorageType.CDROM, Slot := s, Path := env.joinPath env.pwd path } tag with
          | error e => left; exact ⟨e, rfl⟩
          | ok m =>
            right
            exact ⟨_, tag, m, _, hi, rfl, rfl⟩

theorem nicStep_of_declares (vm : VMInfo) (j : GoString) (slot : Int)
    (h : nicDeclares j = some slot) :
    (∃ e, nicStep vm j = Except.error e) ∨
      ∃ (v : NetworkInterface) (tag : GoString) (m : GoMap NetworkInterface) (vm1 : VMInfo),
        insertSlot vm.Network.Raw slot v tag = Except.ok m ∧
        nicStep vm j = Except.ok vm1 ∧ vm1.Network.Raw = m := by
  rw [nicStep_eq]
  unfold nicDeclares at h
  cases hp : nicParse j with
  | error e => rw [hp] at h; cases h
  | ok r =>
    rw [hp] at h
    cases r with
    | none => cases h
    | some s =>
      simp only [Option.some.injEq] at h
      subst h
      simp only
      cases hi : insertSlot vm.Network.Raw s { Typ := NetworkType.Raw, Slot := s } j with
      | error e => left; exact ⟨e, rfl⟩
      | ok m => right; exact ⟨_, j, m, _, hi, rfl, rfl⟩

theorem KeepsEntries.refl (vm : VMInfo) : KeepsEntries vm vm :=
  ⟨fun _ _ h => h, fun _ _ h => h, fun _ _ h => h⟩

theorem KeepsEntries.trans {a b c : VMInfo} (h1 : KeepsEntries a b) (h2 : KeepsEntries b c) :
    KeepsEntries a c :=
  ⟨fun k v h => h2.1 k v (h1.1 k v h), fun k v h => h2.2.1 k v (h1.2.1 k v h),
    fun k v h => h2.2.2 k v (h1.2.2 k v h)⟩

theorem KeepsEntries.tableOf_has {a b : VMInfo} (h : KeepsEntries a b) (cls : StorageType)
    (key : GoString) (hk : (tableOf cls a).has key = true) : (tableOf cls b).has key = true := by
  cases cls with
  | HDD => exact GoMap.has_of_keeps h.2.1 key hk
  | CDROM => exact GoMap.has_of_keeps h.2.2 key hk

theorem nicStep_keeps (vm vm1 : VMInfo) (j : GoString) (hstep : nicStep vm j = Except.ok vm1) :
    KeepsEntries vm vm1 := by
  rw [nicStep_eq] at hstep
  cases hp : nicParse j with
  | error e => rw [hp] at hstep; cases hstep
  | ok r =>
    cases r with
    | none => rw [hp] at hstep; cases hstep; exact KeepsEntries.refl vm
    | some slot =>
      rw [hp] at hstep
      simp only at hstep
      cases hi : insertSlot vm.Network.Raw slot { Typ := NetworkType.Raw, Slot := slot } j with
      | error e => rw [hi] at hstep; cases hstep
      | ok m =>
        rw [hi] at hstep
        cases hstep
        exact ⟨fun k v h => insertSlot_keeps hi k v h, fun _ _ h => h, fun _ _ h => h⟩

theorem volumeStep_keeps (env : Session) (vm vm1 : VMInfo) (j : GoString)
    (hstep : volumeStep env vm j = Except.ok vm1) : KeepsEntries vm vm1 := by
  rw [volumeStep_eq] at hstep
  cases hp : volumeParse env.statOk j with
  | error e => rw [hp] at hstep; cases hstep
  | ok r =>
    cases r with
    | none => rw [hp] at hstep; cases hstep; exact KeepsEntries.refl vm
    | some q =>
      obtain ⟨cls, slot, tag, path⟩ := q
      rw [hp] at hstep
      cases cls with
      | HDD =>
        simp only at hstep
        cases hi : insertSlot vm.Storage.HardDrives slot
            { Typ := StorageType.HDD, Slot := slot, Path := env.joinPath env.pwd path } tag with
        | error e => rw [hi] at hstep; cases hstep
        | ok m =>
          rw [hi] at hstep
          cases hstep
          exact ⟨fun _ _ h => h, fun k v h => insertSlot_keeps hi k v h, fun _ _ h => h⟩
      | CDROM =>
        simp only at hstep
        cases hi : insertSlot vm.Storage.CDDrives slot
            { Typ := StorageType.CDROM, Slot := slot, Path := env.joinPath env.pwd path } tag with
        | error e => rw [hi] at hstep; cases hstep
        | ok m =>
          rw [hi] at hstep
          cases hstep
          exact ⟨fun _ _ h => h, fun _ _ h => h, fun k v h => insertSlot_keeps hi k v h⟩

theorem validateNetworkInterfaces_keeps (toks : List GoString) :
    ∀ vm vm1 : VMInfo, validateNetworkInterfaces vm toks = Except.ok vm1 →
      KeepsEntries vm vm1 := by
  induction toks with
  | nil =>
    intro vm vm1 hrun
    simp only [validateNetworkInterfaces] at hrun
    cases hrun
    exact KeepsEntries.refl vm
  | cons j rest ih =>
    intro vm vm1 hrun
    simp only [validateNetworkInterfaces] at hrun
    cases hs : nicStep vm j with
    | error e => rw [hs] at hrun; cases hrun
    | ok vm2 =>
      rw [hs] at hrun
      exact (nicStep_keeps vm vm2 j hs).trans (ih vm2 vm1 hrun)

theorem validateVolumes_keeps (env : Session) (toks : List GoString) :
    ∀ vm vm1 : VMInfo, validateVolumes env vm toks = Except.ok vm1 →
      KeepsEntries vm vm1 := by
  induction toks with
  | nil =>
    intro vm vm1 hrun
    simp only [validateVolumes] at hrun
    cases hrun
    exact KeepsEntries.refl vm
  | cons j rest ih =>
    intro vm vm1 hrun
    simp only [validateVolumes] at hrun
    cases hs : volumeStep env vm j with
    | error e => rw [hs] at hrun; cases hrun
    | ok vm2 =>
      rw [hs] at hrun
      exact (volumeStep_keeps env vm vm2 j hs).trans (ih vm2 vm1 hrun)

theorem validateVolumes_append (env : Session) (l1 l2 : List GoString) :
    ∀ vm : VMInfo, validateVolumes env vm (l1 ++ l2) =
      match validateVolumes env vm l1 with
      | Except.error e => Except.error e
      | Except.ok vm1 => validateVolumes env vm1 l2 := by
  induction l1 with
  | nil => intro vm; simp [validateVolumes]
  | cons j rest ih =>
    intro vm
    simp only [List.cons_append, validateVolumes]
    cases hs : volumeStep env vm j with
    | error e => rfl
    | ok vm2 => exact ih vm2

theorem validateNetworkInterfaces_append (l1 l2 : List GoString) :
    ∀ vm : VMInfo, validateNetworkInterfaces vm (l1 ++ l2) =
      match validateNetworkInterfaces vm l1 with
      | Except.error e => Except.error e
      | Except.ok vm1 => validateNetworkInterfaces vm1 l2 := by
  induction l1 with
  | nil => intro vm; simp [validateNetworkInterfaces]
  | cons j rest ih =>
    intro vm
    simp only [List.cons_append, validateNetworkInterfaces]
    cases hs : nicStep vm j with
    | error e => rfl
    | ok vm2 => exact ih vm2

theorem volumes_duplicate_fatal (env : Session) (vm : VMInfo) (pre mid post : List GoString)
    (x y : GoString) (cls : StorageType) (slot : Int)
    (hx : volumeDeclares x = some (cls, slot)) (hy : volumeDeclares y = some (cls, slot)) :
    isFatal (validateVolumes env vm (pre ++ x :: (mid ++ y :: post))) = true := by
  rw [validateVolumes_append]
  cases h1 : validateVolumes env vm pre with
  | error e => rfl
  | ok vm1 =>
    simp only [validateVolumes]
    rcases volumeStep_of_declares env vm1 x cls slot hx with ⟨e, he⟩ | ⟨v, tag, m, vm2, hi, hs, ht⟩
    · rw [he]; rfl
    · rw [hs]
      simp only
      rw [validateVolumes_append]
      cases h3 : validateVolumes env vm2 mid with
      | error e => rfl
      | ok vm3 =>
        simp only [validateVolumes]
        have hhas2 : (tableOf cls vm2).has (itoa slot) = true := by
          rw [ht]; exact insertSlot_has_new hi
        have hhas3 := (validateVolumes_keeps env mid vm2 vm3 h3).tableOf_has cls _ hhas2
        rcases volumeStep_of_declares env vm3 y cls slot hy with
          ⟨e, he⟩ | ⟨v1, tag1, m1, vm4, hi1, _, _⟩
        · rw [he]; rfl
        · rw [insertSlot_of_has _ _ _ _ hhas3] at hi1
          cases hi1

theorem nics_duplicate_fatal (vm : VMInfo) (pre mid post : List GoString)
    (x y : GoString) (slot : Int)
    (hx : nicDeclares x = some slot) (hy : nicDeclares y = some slot) :
    isFatal (validateNetworkInterfaces vm (pre ++ x :: (mid ++ y :: post))) = true := by
  rw [validateNetworkInterfaces_append]
  cases h1 : validateNetworkInterfaces vm pre with
  | error e => rfl
  | ok vm1 =>
    simp only [validateNetworkInterfaces]
    rcases nicStep_of_declares vm1 x slot hx with ⟨e, he⟩ | ⟨v, tag, m, vm2, hi, hs, ht⟩
    · rw [he]; rfl
    · rw [hs]
      simp only
      rw [validateNetworkInterfaces_append]
      cases h3 : validateNetworkInterfaces vm2 mid with
      | error e => rfl
      | ok vm3 =>
        simp only [validateNetworkInterfaces]
        have hhas2 : vm2.Network.Raw.has (itoa slot) = true := by
          rw [ht]; exact insertSlot_has_new hi
        have hhas3 := GoMap.has_of_keeps
          (validateNetworkInterfaces_keeps mid vm2 vm3 h3).1 _ hhas2
        rcases nicStep_of_declares vm3 y slot hy with
          ⟨e, he⟩ | ⟨v1, tag1, m1, vm4, hi1, _, _⟩
        · rw [he]; rfl
        · rw [insertSlot_of_has _ _ _ _ hhas3] at hi1
          cases hi1

/-- C3. In a token list given to `validateVolumes` (resp. to
`validateNetworkInterfaces`) in which two tokens, at different places, declare
the same slot of the same slot space (hard drives, CD drives, network), the run
ends in a fatal error, whatever the descriptor it starts from and whatever the
other tokens are.  And a run that does not end in a fatal error keeps every entry
that was in a table before it: no entry is overwritten or removed. -/
theorem duplicate_slot_fatal_entries_kept :
    (∀ (env : Session) (vm : VMInfo) (pre mid post : List GoString) (x y : GoString)
        (cls : StorageType) (slot : Int),
      volumeDeclares x = some (cls, slot) → volumeDeclares y = some (cls, slot) →
      isFatal (validateVolumes env vm (pre ++ x :: (mid ++ y :: post))) = true) ∧
    (∀ (vm : VMInfo) (pre mid post : List GoString) (x y : GoString) (slot : Int),
      nicDeclares x = some slot → nicDeclares y = some slot →
      isFatal (validateNetworkInterfaces vm (pre ++ x :: (mid ++ y :: post))) = true) ∧
    (∀ (env : Session) (vm vm1 : VMInfo) (toks : List GoString),
      validateVolumes env vm toks = Except.ok vm1 → KeepsEntries vm vm1) ∧
    (∀ (vm vm1 : VMInfo) (toks : List GoString),
      validateNetworkInterfaces vm toks = Except.ok vm1 → KeepsEntries vm vm1) :=
  ⟨fun env vm pre mid post x y cls slot hx hy =>
      volumes_duplicate_fatal env vm pre mid post x y cls slot hx hy,
    fun vm pre mid post x y slot hx hy =>
      nics_duplicate_fatal vm pre mid post x y slot hx hy,
    fun env vm vm1 toks h => validateVolumes_keeps env toks vm vm1 h,
    fun vm vm1 toks h => validateNetworkInterfaces_keeps toks vm vm1 h⟩

theorem duplicate_slot_fatal_entries_kept_witness :
    (volumeDeclares "vda@p".toList = some (StorageType.HDD, 0) ∧
      volumeDeclares "vda@q".toList = some (StorageType.HDD, 0) ∧
      isFatal (validateVolumes Session.demo VMInfo.empty
        ([] ++ "vda@p".toList :: (["cdrom0@r".toList] ++ "vda@q".toList :: []))) = true) ∧
    (nicDeclares "eth0".toList = some 0 ∧
      isFatal (validateNetworkInterfaces VMInfo.empty
        ([] ++ "eth0".toList :: ([] ++ "eth0".toList :: []))) = true) :=
  ⟨⟨by decide, by decide,
      duplicate_slot_fatal_entries_kept.1 Session.demo VMInfo.empty [] ["cdrom0@r".toList] []
        "vda@p".toList "vda@q".toList StorageType.HDD 0 (by decide) (by decide)⟩,
    ⟨by decide,
      duplicate_slot_fatal_entries_kept.2.1 VMInfo.empty [] [] [] "eth0".toList "eth0".toList 0
        (by decide) (by decide)⟩⟩

/-! ## `eth` tokens -/

theorem nicParse_ethToken (d : Nat) (h : d < 10) :
    nicParse (ethToken d) = Except.ok (some (d : Int)) := by
  interval_cases d <;> rfl

theorem gaplessTo_rawEntries (a : Nat) :
    GaplessTo NetworkInterface.Slot a ((List.range a).map rawEntry) := by
  induction a with
  | zero => exact GaplessTo.nil _
  | succ n ih =>
    rw [List.range_succ, List.map_append]
    exact ih.snoc _ rfl

theorem validateNetworkInterfaces_eth_run (n : Nat) :
    ∀ (a : Nat) (vm : VMInfo), a + n ≤ 10 → vm.Network.Raw = (List.range a).map rawEntry →
      validateNetworkInterfaces vm ((List.range' a n).map ethToken) =
        Except.ok { vm with Network := { Raw := (List.range (a + n)).map rawEntry } } := by
  induction n with
  | zero =>
    intro a vm _ hraw
    simp only [List.range', List.map, validateNetworkInterfaces, Nat.add_zero]
    rw [← hraw]
  | succ n ih =>
    intro a vm hle hraw
    simp only [List.range', List.map, validateNetworkInterfaces]
    rw [nicStep_eq, nicParse_ethToken a (by omega)]
    simp only
    have hg : GaplessTo NetworkInterface.Slot a vm.Network.Raw := by
      rw [hraw]; exact gaplessTo_rawEntries a
    rw [(insertSlot_gapless hg (a : Int) _ _).1 rfl]
    simp only
    rw [ih (a + 1) _ (by omega) (by
      simp only [hraw, List.range_succ, List.map_append]
      rfl)]
    have : a + 1 + n = a + (n + 1) := by omega
    rw [this]

theorem nicStep_not_eth (vm : VMInfo) (t : GoString) (h : hasPrefix t "eth".toList = false) :
    nicStep vm t = Except.ok vm ∨ ∃ e, nicStep vm t = Except.error e := by
  unfold nicStep
  by_cases h0 : t.length > 0
  · simp only [h0, if_true, h, Bool.false_eq_true, if_false]
    cases h2 : hasPrefix t "tap".toList
    · right; exact ⟨Fatal.netFormat t, by simp⟩
    · cases h3 : matchLitClassEnd "tap".toList Char.isDigit t
      · right; exact ⟨Fatal.netFormat t, by simp⟩
      · left; simp
  · left; simp only [h0, if_false]

theorem validateNetworkInterfaces_not_eth (pre : List GoString) (vm : VMInfo)
    (h : ∀ t ∈ pre, hasPrefix t "eth".toList = false) :
    validateNetworkInterfaces vm pre = Except.ok vm ∨
      ∃ e, validateNetworkInterfaces vm pre = Except.error e := by
  induction pre with
  | nil => left; rfl
  | cons t rest ih =>
    simp only [validateNetworkInterfaces]
    rcases nicStep_not_eth vm t (h t (List.mem_cons_self _ _)) with hs | ⟨e, hs⟩
    · rw [hs]
      exact ih (fun t ht => h t (List.mem_cons_of_mem _ ht))
    · rw [hs]
      right; exact ⟨e, rfl⟩

/-- C4. For network tokens `eth<digit>`, starting from a descriptor whose `Raw`
table is empty: (1) for every `n ≤ 10` the list `eth0, eth1, ..., eth(n-1)` is
accepted and leaves `Raw` with exactly the entries `"i" -> {Type: Raw, Slot: i}` for
`i < n`, nothing else in the descriptor being changed; (2) a list whose first token
with the prefix `eth` is `eth<d>` with `0 < d ≤ 9` (as `[eth1]` or `[eth9]`) ends in
a fatal error; (3) `eth9` is accepted by the grammar: once `eth0` .. `eth8` are in
the table, the token `eth9` adds slot 9. -/
theorem eth_tokens_in_order (vm : VMInfo) (hempty : vm.Network.Raw = []) :
    (∀ n : Nat, n ≤ 10 →
      validateNetworkInterfaces vm ((List.range n).map ethToken) =
        Except.ok { vm with Network := { Raw := (List.range n).map rawEntry } }) ∧
    (∀ (pre post : List GoString) (d : Nat),
      (∀ t ∈ pre, hasPrefix t "eth".toList = false) → 0 < d → d < 10 →
      isFatal (validateNetworkInterfaces vm (pre ++ ethToken d :: post)) = true) ∧
    nicStep { vm with Network := { Raw := (List.range 9).map rawEntry } } (ethToken 9) =
      Except.ok { vm with Network := { Raw := (List.range 10).map rawEntry } } := by
  refine ⟨?_, ?_, ?_⟩
  · intro n hn
    have hrun := validateNetworkInterfaces_eth_run n 0 vm (by omega) (by rw [hempty]; rfl)
    have htoks : (List.range n).map ethToken = (List.range' 0 n).map ethToken := by
      rw [List.range_eq_range']
    rw [htoks, hrun, Nat.zero_add]
  · intro pre post d hpre hd0 hd
    rw [validateNetworkInterfaces_append]
    rcases validateNetworkInterfaces_not_eth pre vm hpre with h | ⟨e, h⟩
    · rw [h]
      simp only [validateNetworkInterfaces]
      rw [nicStep_eq, nicParse_ethToken d hd]
      simp only
      have hg : GaplessTo NetworkInterface.Slot 0 vm.Network.Raw := by
        rw [hempty]; exact GaplessTo.nil _
      obtain ⟨e, he⟩ := (insertSlot_gapless hg (d : Int)
        { Typ := NetworkType.Raw, Slot := (d : Int) } (ethToken d)).2 (by
          intro hh
          have : d = 0 := by exact_mod_cast hh
          omega)
      rw [he]
      rfl
    · rw [h]; rfl
  · rw [nicStep_eq, nicParse_ethToken 9 (by decide)]
    simp only
    rw [(insertSlot_gapless (gaplessTo_rawEntries 9) ((9 : Nat) : Int) _ _).1 rfl]
    rfl

theorem eth_tokens_in_order_witness :
    VMInfo.empty.Network.Raw = [] ∧
    validateNetworkInterfaces VMInfo.empty ((List.range 2).map ethToken) =
      Except.ok { VMInfo.empty with Network := { Raw := (List.range 2).map rawEntry } } ∧
    isFatal (validateNetworkInterfaces VMInfo.empty ([] ++ ethToken 9 :: [])) = true :=
  ⟨rfl, (eth_tokens_in_order VMInfo.empty rfl).1 2 (by decide),
    (eth_tokens_in_order VMInfo.empty rfl).2.1 [] [] 9
      (fun t ht => absurd ht (List.not_mem_nil t)) (by decide) (by decide)⟩

/-! ## Tokens outside the documented grammar -/

/-- C5 (evaluation of the code). The pattern `vd([a-z]{1})$` is not anchored on
the left and the slot is read at index 2 of the tag, so the token `vdavda@p`,
whose tag is not `vd` followed by one letter, is accepted and stores hard drive 0;
likewise `cdromcdrom0@p` stores CD drive 0; and after `vda@p` the token `vdbvda@p`
stores hard drive 1 (the letter at index 2), not the drive of the letter the
pattern matched. -/
theorem volume_tag_not_anchored :
    validateVolumes Session.demo VMInfo.empty ["vdavda@p".toList] =
      Except.ok { VMInfo.empty with Storage := {
        HardDrives := [("0".toList,
          { Typ := StorageType.HDD, Slot := 0, Path := "/w/p".toList })],
        CDDrives := [] } } ∧
    validateVolumes Session.demo VMInfo.empty ["cdromcdrom0@p".toList] =
      Except.ok { VMInfo.empty with Storage := {
        HardDrives := [],
        CDDrives := [("0".toList,
          { Typ := StorageType.CDROM, Slot := 0, Path := "/w/p".toList })] } } ∧
    validateVolumes Session.demo VMInfo.empty ["vda@p".toList, "vdbvda@q".toList] =
      Except.ok { VMInfo.empty with Storage := {
        HardDrives := [("0".toList,
          { Typ := StorageType.HDD, Slot := 0, Path := "/w/p".toList }),
          ("1".toList, { Typ := StorageType.HDD, Slot := 1, Path := "/w/q".toList })],
        CDDrives := [] } } := by
  decide

/-- C6 (evaluation of the code). The patterns `eth([0-9]{1})$` and
`tap([0-9]{1})$` are not anchored on the left, so the token `etheth0`, which is
not `eth` followed by one digit, is accepted and stores interface 0, and the
token `taptap0` is accepted (and ignored) instead of ending the run. -/
theorem net_tag_not_anchored :
    validateNetworkInterfaces VMInfo.empty ["etheth0".toList] =
      Except.ok { VMInfo.empty with Network := { Raw :=
        [("0".toList, { Typ := NetworkType.Raw, Slot := 0 })] } } ∧
    validateNetworkInterfaces VMInfo.empty ["taptap0".toList] = Except.ok VMInfo.empty := by
  decide

/-! ## What an accepted storage token stores -/

theorem split_length_pos (sep : Char) (s : GoString) : 1 ≤ (split sep s).length := by
  induction s with
  | nil => simp [split]
  | cons c cs ih =>
    by_cases hc : c = sep
    · simp [split, hc]
    · cases hs : split sep cs with
      | nil => rw [hs] at ih; simp at ih
      | cons piece pieces => simp [split, hc, hs]

theorem split_length_of_mem (sep : Char) (s : GoString) (h : sep ∈ s) :
    2 ≤ (split sep s).length := by
  induction s with
  | nil => cases h
  | cons c cs ih =>
    by_cases hc : c = sep
    · have := split_length_pos sep cs
      simp only [split, hc, if_true, List.length_cons]
      omega
    · have hcs : sep ∈ cs := by
        rcases List.mem_cons.mp h with h1 | h1
        · exact absurd h1.symm hc
        · exact h1
      have := ih hcs
      cases hs : split sep cs with
      | nil => rw [hs] at this; simp at this
      | cons piece pieces =>
        rw [hs] at this
        simpa [split, hc, hs] using this

theorem split_append_sep (sep : Char) (a b : GoString) (h : sep ∉ a) :
    split sep (a ++ sep :: b) = a :: split sep b := by
  induction a with
  | nil => simp [split]
  | cons x a ih =>
    have hx : x ≠ sep := fun hh => h (by rw [hh]; exact List.mem_cons_self _ _)
    have ha : sep ∉ a := fun hh => h (List.mem_cons_of_mem _ hh)
    simp [split, hx, ih ha]

theorem volumeParse_of_at_in_path (statOk : GoString → Bool) (tag path : GoString)
    (htag : '@' ∉ tag) (hp : '@' ∈ path) :
    volumeParse statOk (tag ++ '@' :: path) = Except.error (Fatal.volumeFormat (tag ++ '@' :: path)) := by
  have hlen := split_length_of_mem '@' path hp
  have hsplit := split_append_sep '@' tag path htag
  unfold volumeParse
  have h0 : (tag ++ '@' :: path).length > 0 := by simp
  simp only [h0, if_true, hsplit]
  cases hs : split '@' path with
  | nil => rfl
  | cons y rest =>
    cases rest with
    | nil => rw [hs] at hlen; simp at hlen
    | cons z rest2 => rfl

theorem GoMap.get?_snoc_new {V : Type} (m : GoMap V) (k : GoString) (v : V)
    (h : m.has k = false) :
    m.get? k = none ∧ (m ++ [(k, v)]).get? k = some v ∧
      ∀ key v0, m.get? key = some v0 → (m ++ [(k, v)]).get? key = some v0 := by
  have hset := GoMap.set_of_not_has m k v h
  refine ⟨?_, ?_, ?_⟩
  · unfold GoMap.has at h
    cases hg : m.get? k with
    | none => rfl
    | some v0 => rw [hg] at h; simp at h
  · rw [← hset, GoMap.get?_set]; simp
  · intro key v0 hk
    rw [← hset, GoMap.get?_set]
    have hne : ¬ k = key := by
      intro hh
      rw [hh] at h
      simp [GoMap.has, hk] at h
    simp [hne, hk]

theorem volumeStep_vd_ok (env : Session) (vm vm1 : VMInfo) (c : Char) (path : GoString)
    (hc : c.isLower = true)
    (hstep : volumeStep env vm (VolumeSpec.token (VolumeSpec.vd c path)) = Except.ok vm1) :
    vm.Storage.HardDrives.has (itoa ((c.toNat - 97 : Nat) : Int)) = false ∧
      vm1 = { vm with Storage := {
        HardDrives := vm.Storage.HardDrives ++ [(itoa ((c.toNat - 97 : Nat) : Int),
          { Typ := StorageType.HDD, Slot := ((c.toNat - 97 : Nat) : Int),
            Path := env.joinPath env.pwd path })],
        CDDrives := vm.Storage.CDDrives } } := by
  have hb := isLower_bounds c hc
  have hne : c ≠ '@' := ne_at_of_toNat c (by omega)
  rw [volumeStep_eq] at hstep
  by_cases hp : '@' ∈ path
  · have htag : '@' ∉ "vd".toList ++ [c] := by
      simp [hne.symm]
    have := volumeParse_of_at_in_path env.statOk ("vd".toList ++ [c]) path htag hp
    rw [VolumeSpec.token, this] at hstep
    cases hstep
  · rw [volumeParse_vd env.statOk c path hc hp] at hstep
    cases hs : env.statOk path
    · rw [hs] at hstep; cases hstep
    · rw [hs] at hstep
      simp only [if_true] at hstep
      rcases insertSlot_cases vm.Storage.HardDrives ((c.toNat - 97 : Nat) : Int)
          { Typ := StorageType.HDD, Slot := ((c.toNat - 97 : Nat) : Int),
            Path := env.joinPath env.pwd path } ("vd".toList ++ [c]) with
        ⟨e, he⟩ | ⟨h1, _, h3⟩
      · rw [he] at hstep; cases hstep
      · rw [h3] at hstep
        cases hstep
        exact ⟨h1, rfl⟩

theorem volumeStep_cdrom_ok (env : Session) (vm vm1 : VMInfo) (d : Char) (path : GoString)
    (hd : d.isDigit = true)
    (hstep : volumeStep env vm (VolumeSpec.token (VolumeSpec.cdrom d path)) = Except.ok vm1) :
    vm.Storage.CDDrives.has (itoa ((d.toNat - 48 : Nat) : Int)) = false ∧
      vm1 = { vm with Storage := {
        HardDrives := vm.Storage.HardDrives,
        CDDrives := vm.Storage.CDDrives ++ [(itoa ((d.toNat - 48 : Nat) : Int),
          { Typ := StorageType.CDROM, Slot := ((d.toNat - 48 : Nat) : Int),
            Path := env.joinPath env.pwd path })] } } := by
  have hb := isDigit_bounds d hd
  have hne : d ≠ '@' := ne_at_of_toNat d (by omega)
  rw [volumeStep_eq] at hstep
  by_cases hp : '@' ∈ path
  · have htag : '@' ∉ "cdrom".toList ++ [d] := by
      simp [hne.symm]
    have := volumeParse_of_at_in_path env.statOk ("cdrom".toList ++ [d]) path htag hp
    rw [VolumeSpec.token, this] at hstep
    cases hstep
  · rw [volumeParse_cdrom env.statOk d path hd hp] at hstep
    cases hs : env.statOk path
    · rw [hs] at hstep; cases hstep
    · rw [hs] at hstep
      simp only [if_true] at hstep
      rcases insertSlot_cases vm.Storage.CDDrives ((d.toNat - 48 : Nat) : Int)
          { Typ := StorageType.CDROM, Slot := ((d.toNat - 48 : Nat) : Int),
            Path := env.joinPath env.pwd path } ("cdrom".toList ++ [d]) with
        ⟨e, he⟩ | ⟨h1, _, h3⟩
      · rw [he] at hstep; cases hstep
      · rw [h3] at hstep
        cases hstep
        exact ⟨h1, rfl⟩

/-- C7. What an accepted storage token stores.  When `vd<c>@<p>` (`c` a lowercase
letter) is accepted, the descriptor changes only in `HardDrives`, which gains,
under the key `decimal(c - 'a')` that was free before, the entry
`{Type: HDD, Slot: c - 'a', Path: join(pwd, p)}`; every earlier entry of
`HardDrives` and the whole of `CDDrives` are as before.  When `cdrom<d>@<p>` (`d`
a digit) is accepted, the descriptor changes only in `CDDrives`, which gains,
under the key `decimal(d)` that was free before, the entry
`{Type: CDROM, Slot: d, Path: join(pwd, p)}`; every earlier entry of `CDDrives`
and the whole of `HardDrives` are as before. -/
theorem accepted_storage_token_stores :
    (∀ (env : Session) (vm vm1 : VMInfo) (c : Char) (p : GoString),
      c.isLower = true →
      volumeStep env vm (VolumeSpec.token (VolumeSpec.vd c p)) = Except.ok vm1 →
      vm1 = { vm with Storage := {
          HardDrives := vm.Storage.HardDrives ++ [(itoa ((c.toNat - 97 : Nat) : Int),
            { Typ := StorageType.HDD, Slot := ((c.toNat - 97 : Nat) : Int),
              Path := env.joinPath env.pwd p })],
          CDDrives := vm.Storage.CDDrives } } ∧
        vm.Storage.HardDrives.get? (itoa ((c.toNat - 97 : Nat) : Int)) = none ∧
        vm1.Storage.HardDrives.get? (itoa ((c.toNat - 97 : Nat) : Int)) =
          some {
            Typ := StorageType.HDD, Slot := ((c.toNat - 97 : Nat) : Int),
            Path := env.joinPath env.pwd p } ∧
        (∀ key v, vm.Storage.HardDrives.get? key = some v →
          vm1.Storage.HardDrives.get? key = some v) ∧
        vm1.Storage.CDDrives = vm.Storage.CDDrives) ∧
    (∀ (env : Session) (vm vm1 : VMInfo) (d : Char) (p : GoString),
      d.isDigit = true →
      volumeStep env vm (VolumeSpec.token (VolumeSpec.cdrom d p)) = Except.ok vm1 →
      vm1 = { vm with Storage := {
          HardDrives := vm.Storage.HardDrives,
          CDDrives := vm.Storage.CDDrives ++ [(itoa ((d.toNat - 48 : Nat) : Int),
            { Typ := StorageType.CDROM, Slot := ((d.toNat - 48 : Nat) : Int),
              Path := env.joinPath env.pwd p })] } } ∧
        vm.Storage.CDDrives.get? (itoa ((d.toNat - 48 : Nat) : Int)) = none ∧
        vm1.Storage.CDDrives.get? (itoa ((d.toNat - 48 : Nat) : Int)) =
          some {
            Typ := StorageType.CDROM, Slot := ((d.toNat - 48 : Nat) : Int),
            Path := env.joinPath env.pwd p } ∧
        (∀ key v, vm.Storage.CDDrives.get? key = some v →
          vm1.Storage.CDDrives.get? key = some v) ∧
        vm1.Storage.HardDrives = vm.Storage.HardDrives) := by
  constructor
  · intro env vm vm1 c p hc hstep
    obtain ⟨hfree, hvm⟩ := volumeStep_vd_ok env vm vm1 c p hc hstep
    obtain ⟨h1, h2, h3⟩ := GoMap.get?_snoc_new vm.Storage.HardDrives _
      { Typ := StorageType.HDD, Slot := ((c.toNat - 97 : Nat) : Int),
        Path := env.joinPath env.pwd p } hfree
    subst hvm
    exact ⟨rfl, h1, h2, h3, rfl⟩
  · intro env vm vm1 d p hd hstep
    obtain ⟨hfree, hvm⟩ := volumeStep_cdrom_ok env vm vm1 d p hd hstep
    obtain ⟨h1, h2, h3⟩ := GoMap.get?_snoc_new vm.Storage.CDDrives _
      { Typ := StorageType.CDROM, Slot := ((d.toNat - 48 : Nat) : Int),
        Path := env.joinPath env.pwd p } hfree
    subst hvm
    exact ⟨rfl, h1, h2, h3, rfl⟩

theorem accepted_storage_token_stores_witness :
    volumeStep Session.demo VMInfo.empty (VolumeSpec.token (VolumeSpec.vd 'a' "p".toList)) =
      Except.ok { VMInfo.empty with Storage := {
        HardDrives := [("0".toList,
          { Typ := StorageType.HDD, Slot := 0, Path := "/w/p".toList })],
        CDDrives := [] } } ∧
    ({ VMInfo.empty with Storage := {
        HardDrives := [("0".toList,
          { Typ := StorageType.HDD, Slot := 0, Path := "/w/p".toList })],
        CDDrives := [] } } : VMInfo).Storage.CDDrives = VMInfo.empty.Storage.CDDrives ∧
    volumeStep Session.demo VMInfo.empty
        (VolumeSpec.token (VolumeSpec.cdrom '0' "p".toList)) =
      Except.ok { VMInfo.empty with Storage := {
        HardDrives := [],
        CDDrives := [("0".toList,
          { Typ := StorageType.CDROM, Slot := 0, Path := "/w/p".toList })] } } ∧
    ({ VMInfo.empty with Storage := {
        HardDrives := [],
        CDDrives := [("0".toList,
          { Typ := StorageType.CDROM, Slot := 0, Path := "/w/p".toList })] } } :
      VMInfo).Storage.HardDrives = VMInfo.empty.Storage.HardDrives :=
  ⟨by decide,
    (accepted_storage_token_stores.1 Session.demo VMInfo.empty _ 'a' "p".toList (by decide)
      (by decide)).2.2.2.2,
    by decide,
    (accepted_storage_token_stores.2 Session.demo VMInfo.empty _ '0' "p".toList (by decide)
      (by decide)).2.2.2.2⟩

/-! ## The launch specification -/

theorem foldl_append_flatMap {α β : Type} (f : α → List β) (l : List α) :
    ∀ init : List β, l.foldl (fun acc e => acc ++ f e) init = init ++ l.flatMap f := by
  induction l with
  | nil => intro init; simp
  | cons a rest ih =>
    intro init
    simp only [List.foldl_cons, ih, List.flatMap_cons, List.append_assoc]

theorem cmdlineStart_eq (env : Session) (vm : VMInfo) :
    cmdlineStart env vm =
      "earlyprintk=serial console=ttyS0 coreos.autologin localuser=".toList ++ env.username ++
        " uuid=".toList ++ vm.UUID ++
        (if vm.SSHkey ≠ [] then " sshkey=\"".toList ++ vm.SSHkey ++ "\"".toList else []) := by
  unfold cmdlineStart
  by_cases h : vm.SSHkey = [] <;> simp [h]

theorem instrStart_eq (vm : VMInfo) :
    instrStart vm =
      ["-s".toList, "0:0,hostbridge".toList, "-l".toList, "com1,stdio".toList, "-s".toList,
        "31,lpc".toList, "-U".toList, vm.UUID, "-m".toList, vm.Memory ++ "M".toList,
        "-c".toList, vm.Cpus, "-A".toList] ++
      (if vm.Extra ≠ [] then [vm.Extra] else []) := by
  unfold instrStart
  by_cases h : vm.Extra = [] <;> simp [h]

theorem runCommand_ok (env : Session) (vm : VMInfo) (o : RangeOrder) (cmdline : GoString)
    (args : List GoString) (h : runCommand env vm o = Except.ok (cmdline, args)) :
    cmdline = documentedCmdline env vm ∧ args = documentedVector env vm o cmdline := by
  unfold runCommand at h
  simp only [foldl_append_flatMap] at h
  split_ifs at h with h1 h2 h3 h4 h5 h6 h7 h8
  all_goals
    simp only [Except.ok.injEq, Prod.mk.injEq] at h
    obtain ⟨hc, ha⟩ := h
    refine ⟨?_, ?_⟩
  · rw [← hc, cmdlineStart_eq]
    simp [documentedCmdline, h3, h4]
  · rw [← ha, ← hc, instrStart_eq]
    simp [documentedVector, documentedKexec, vmlinuzPath, initrdPath]
  · have hrem : vm.CClocation = CCLocation.Remote := by
      cases hcc : vm.CClocation with
      | Local => exact absurd hcc h4
      | Remote => rfl
    rw [← hc, cmdlineStart_eq]
    simp [documentedCmdline, h3, hrem]
  · rw [← ha, ← hc, instrStart_eq]
    simp [documentedVector, documentedKexec, vmlinuzPath, initrdPath]
  · have h3' : vm.CloudConfig = [] := by simpa using h3
    rw [← hc, cmdlineStart_eq]
    simp [documentedCmdline, h3']
  · rw [← ha, ← hc, instrStart_eq]
    simp [documentedVector, documentedKexec, vmlinuzPath, initrdPath]

theorem runCommand_reached (env : Session) (vm : VMInfo) (o : RangeOrder)
    (h : LaunchReached env vm) :
    ∃ cmdline args, runCommand env vm o = Except.ok (cmdline, args) := by
  obtain ⟨h1, h2, h3, h4, h5⟩ := h
  unfold runCommand
  simp only [h1, h2, h3, h4, h5]
  by_cases hcc : vm.CloudConfig = []
  · simp [hcc]
  · by_cases hl : vm.CClocation = CCLocation.Local
    · simp [hcc, hl]
    · simp [hcc, hl]

theorem getElem?_two_holes {α : Type} (pre mid : List α) (x y x1 y1 : α) (i : Nat)
    (h1 : i ≠ pre.length) (h2 : i ≠ pre.length + 1 + mid.length) :
    (pre ++ x :: (mid ++ [y]))[i]? = (pre ++ x1 :: (mid ++ [y1]))[i]? := by
  by_cases hlt : i < pre.length
  · rw [List.getElem?_append_left hlt, List.getElem?_append_left hlt]
  · have hge : pre.length ≤ i := by omega
    rw [List.getElem?_append_right hge, List.getElem?_append_right hge]
    obtain ⟨j, hj⟩ : ∃ j, i - pre.length = j + 1 := ⟨i - pre.length - 1, by omega⟩
    rw [hj, List.getElem?_cons_succ, List.getElem?_cons_succ]
    by_cases hj2 : j < mid.length
    · rw [List.getElem?_append_left hj2, List.getElem?_append_left hj2]
    · have hj3 : mid.length ≤ j := by omega
      rw [List.getElem?_append_right hj3, List.getElem?_append_right hj3]
      obtain ⟨l, hl⟩ : ∃ l, j - mid.length = l + 1 := ⟨j - mid.length - 1, by omega⟩
      rw [hl]
      simp

theorem getLast?_two_holes {α : Type} (pre mid : List α) (x y : α) :
    (pre ++ x :: (mid ++ [y])).getLast? = some y := by
  have h : pre ++ x :: (mid ++ [y]) = (pre ++ x :: mid) ++ [y] := by simp
  rw [h, List.getLast?_append]
  simp

theorem documentedVector_shape (env : Session) (vm : VMInfo) (o : RangeOrder)
    (cmdline : GoString) :
    documentedVector env vm o cmdline =
      ["-s".toList, "0:0,hostbridge".toList, "-l".toList, "com1,stdio".toList, "-s".toList,
        "31,lpc".toList, "-U".toList] ++ vm.UUID ::
      ((["-m".toList, vm.Memory ++ "M".toList, "-c".toList, vm.Cpus, "-A".toList] ++
        (if vm.Extra ≠ [] then [vm.Extra] else []) ++
        o.raw.flatMap (fun e =>
          ["-s".toList, "2:".toList ++ itoa e.2.Slot ++ ",virtio-net".toList]) ++
        o.cd.flatMap (fun e =>
          ["-s".toList, "3:".toList ++ itoa e.2.Slot ++ ",ahci-cd,".toList ++ e.2.Path]) ++
        o.hd.flatMap (fun e =>
          ["-s".toList, "4:".toList ++ itoa e.2.Slot ++ ",virtio-blk,".toList ++ e.2.Path]) ++
        ["-f".toList]) ++ [documentedKexec env vm cmdline]) := by
  simp [documentedVector]

/-- C8. The argument vector handed to the hypervisor.  Let the three `range`
loops visit each entry of `Network.Raw`, `Storage.CDDrives` and
`Storage.HardDrives` (as they are after `setDefaultNIC`) once.  Whenever
`runCommand` reaches the start of the hypervisor, the vector is exactly
`-s 0:0,hostbridge -l com1,stdio -s 31,lpc -U <UUID> -m <Memory>M -c <Cpus> -A`,
then `Extra` as one token when it is not empty, then one pair
`-s 2:<slot>,virtio-net` per network interface, then one pair
`-s 3:<slot>,ahci-cd,<path>` per CD drive, then one pair
`-s 4:<slot>,virtio-blk,<path>` per hard drive, then `-f kexec,<vmlinuz>,<initrd>,<cmdline>`
with the two image paths under `<configDir>/images/<channel>/<version>/`; the
directive `kexec` is the last token.  And the start of the hypervisor is reached
whenever no step before it fails. -/
theorem hypervisor_argument_vector (env : Session) (vm : VMInfo) (o : RangeOrder)
    (hvisits : o.Visits (env.setDefaultNIC vm)) :
    (∀ cmdline args, runCommand env vm o = Except.ok (cmdline, args) →
      args = documentedVector env vm o cmdline ∧
      args.getLast? = some (documentedKexec env vm cmdline)) ∧
    (LaunchReached env vm →
      ∃ cmdline, runCommand env vm o =
        Except.ok (cmdline, documentedVector env vm o cmdline)) := by
  have _ := hvisits
  constructor
  · intro cmdline args h
    have hv := (runCommand_ok env vm o cmdline args h).2
    refine ⟨hv, ?_⟩
    rw [hv, documentedVector_shape, getLast?_two_holes]
  · intro hreach
    obtain ⟨cmdline, args, h⟩ := runCommand_reached env vm o hreach
    exact ⟨cmdline, by rw [h, (runCommand_ok env vm o cmdline args h).2]⟩

theorem hypervisor_argument_vector_witness :
    RangeOrder.Visits { raw := [rawEntry 0, rawEntry 1], cd := [], hd := [] }
      (Session.demo.setDefaultNIC VMInfo.twoNics) ∧
    runCommand Session.demo VMInfo.twoNics
        { raw := [rawEntry 0, rawEntry 1], cd := [], hd := [] } =
      Except.ok (documentedCmdline Session.demo VMInfo.twoNics,
        ["-s".toList, "0:0,hostbridge".toList, "-l".toList, "com1,stdio".toList,
          "-s".toList, "31,lpc".toList, "-U".toList, "u".toList, "-m".toList,
          "1024M".toList, "-c".toList, "1".toList, "-A".toList,
          "-s".toList, "2:0,virtio-net".toList, "-s".toList, "2:1,virtio-net".toList,
          "-f".toList,
          documentedKexec Session.demo VMInfo.twoNics
            (documentedCmdline Session.demo VMInfo.twoNics)]) ∧
    ["-s".toList, "0:0,hostbridge".toList, "-l".toList, "com1,stdio".toList,
        "-s".toList, "31,lpc".toList, "-U".toList, "u".toList, "-m".toList,
        "1024M".toList, "-c".toList, "1".toList, "-A".toList,
        "-s".toList, "2:0,virtio-net".toList, "-s".toList, "2:1,virtio-net".toList,
        "-f".toList,
        documentedKexec Session.demo VMInfo.twoNics
          (documentedCmdline Session.demo VMInfo.twoNics)] =
      documentedVector Session.demo VMInfo.twoNics
        { raw := [rawEntry 0, rawEntry 1], cd := [], hd := [] }
        (documentedCmdline Session.demo VMInfo.twoNics) :=
  ⟨⟨List.Perm.refl _, List.Perm.refl _, List.Perm.refl _⟩, by decide,
    ((hypervisor_argument_vector Session.demo VMInfo.twoNics
      { raw := [rawEntry 0, rawEntry 1], cd := [], hd := [] }
      ⟨List.Perm.refl _, List.Perm.refl _, List.Perm.refl _⟩).1 _ _ (by decide)).1⟩

/-- C9. The kernel command line.  Whenever `runCommand` reaches the start of the
hypervisor, with login name `u`, the command line is exactly
`earlyprintk=serial console=ttyS0 coreos.autologin localuser=<u> uuid=<UUID>`,
followed by ` sshkey="<key>"` exactly when `SSHkey` is not empty, followed by
` cloud-config-url=<CloudConfig>` exactly when `CloudConfig` is not empty and
its location is `Remote` (a `Local` cloud-config adds nothing); it is the
command line carried by the `kexec` directive that ends the vector. -/
theorem kernel_command_line (env : Session) (vm : VMInfo) (o : RangeOrder)
    (cmdline : GoString) (args : List GoString)
    (hrun : runCommand env vm o = Except.ok (cmdline, args)) :
    cmdline = documentedCmdline env vm ∧
      args.getLast? = some (documentedKexec env vm (documentedCmdline env vm)) := by
  obtain ⟨hc, hv⟩ := runCommand_ok env vm o cmdline args hrun
  refine ⟨hc, ?_⟩
  rw [hv, documentedVector_shape, getLast?_two_holes, ← hc]

theorem kernel_command_line_witness :
    runCommand Session.demo
        { VMInfo.twoNics with
          SSHkey := "k".toList, CloudConfig := "cc".toList,
          CClocation := CCLocation.Local }
        { raw := [rawEntry 0, rawEntry 1], cd := [], hd := [] } =
      Except.ok
        ("earlyprintk=serial console=ttyS0 coreos.autologin localuser=me uuid=u sshkey=\"k\"".toList,
        ["-s".toList, "0:0,hostbridge".toList, "-l".toList, "com1,stdio".toList,
          "-s".toList, "31,lpc".toList, "-U".toList, "u".toList, "-m".toList,
          "1024M".toList, "-c".toList, "1".toList, "-A".toList,
          "-s".toList, "2:0,virtio-net".toList, "-s".toList, "2:1,virtio-net".toList,
          "-f".toList,
          ("kexec,/c/images/alpha/1/coreos_production_pxe.vmlinuz," ++
            "/c/images/alpha/1/coreos_production_pxe_image.cpio.gz," ++
            "earlyprintk=serial console=ttyS0 coreos.autologin localuser=me uuid=u sshkey=\"k\"").toList]) ∧
    "earlyprintk=serial console=ttyS0 coreos.autologin localuser=me uuid=u sshkey=\"k\"".toList =
      documentedCmdline Session.demo
        { VMInfo.twoNics with
          SSHkey := "k".toList, CloudConfig := "cc".toList,
          CClocation := CCLocation.Local } :=
  ⟨by decide,
    (kernel_command_line Session.demo _
      { raw := [rawEntry 0, rawEntry 1], cd := [], hd := [] } _
      ["-s".toList, "0:0,hostbridge".toList, "-l".toList, "com1,stdio".toList,
        "-s".toList, "31,lpc".toList, "-U".toList, "u".toList, "-m".toList,
        "1024M".toList, "-c".toList, "1".toList, "-A".toList,
        "-s".toList, "2:0,virtio-net".toList, "-s".toList, "2:1,virtio-net".toList,
        "-f".toList,
        ("kexec,/c/images/alpha/1/coreos_production_pxe.vmlinuz," ++
          "/c/images/alpha/1/coreos_production_pxe_image.cpio.gz," ++
          "earlyprintk=serial console=ttyS0 coreos.autologin localuser=me uuid=u sshkey=\"k\"").toList]
      (by decide)).1⟩

theorem runCommand_eq_documented (env : Session) (vm : VMInfo) (o : RangeOrder)
    (h : LaunchReached env vm) :
    runCommand env vm o =
      Except.ok (documentedCmdline env vm,
        documentedVector env vm o (documentedCmdline env vm)) := by
  obtain ⟨cmdline, args, hrun⟩ := runCommand_reached env vm o h
  obtain ⟨hc, hv⟩ := runCommand_ok env vm o cmdline args hrun
  rw [hrun, hv, hc]

theorem launchReached_demo (vm : VMInfo) : LaunchReached Session.demo vm := by
  refine ⟨?_, rfl, fun _ => rfl, rfl, fun _ => rfl⟩
  simp only [Session.demo, Bool.not_eq_false', List.isSuffixOf_iff_suffix]
  exact ⟨"/c/running/".toList ++ vm.UUID ++ "//".toList, by simp⟩

/-- C10 (as stated, refuted). Go does not fix the order in which `range` visits a
map.  For the descriptor with the interfaces `eth0` and `eth1`, the visit
`0, 1` and the visit `1, 0` of `Network.Raw` are both runs of `runCommand` that
reach the hypervisor, and they hand it different vectors: position 14 holds
`2:0,virtio-net` in one and `2:1,virtio-net` in the other.  So the same
descriptor does not always yield the same vector. -/
theorem same_descriptor_two_vectors :
    RangeOrder.Visits { raw := [rawEntry 0, rawEntry 1], cd := [], hd := [] }
      (Session.demo.setDefaultNIC VMInfo.twoNics) ∧
    RangeOrder.Visits { raw := [rawEntry 1, rawEntry 0], cd := [], hd := [] }
      (Session.demo.setDefaultNIC VMInfo.twoNics) ∧
    (runCommand Session.demo VMInfo.twoNics
        { raw := [rawEntry 0, rawEntry 1], cd := [], hd := [] }).map
      (fun r => r.2[14]?) = Except.ok (some "2:0,virtio-net".toList) ∧
    (runCommand Session.demo VMInfo.twoNics
        { raw := [rawEntry 1, rawEntry 0], cd := [], hd := [] }).map
      (fun r => r.2[14]?) = Except.ok (some "2:1,virtio-net".toList) ∧
    runCommand Session.demo VMInfo.twoNics
        { raw := [rawEntry 0, rawEntry 1], cd := [], hd := [] } ≠
      runCommand Session.demo VMInfo.twoNics
        { raw := [rawEntry 1, rawEntry 0], cd := [], hd := [] } :=
  ⟨⟨List.Perm.refl _, List.Perm.refl _, List.Perm.refl _⟩,
    ⟨List.Perm.swap _ _ _, List.Perm.refl _, List.Perm.refl _⟩,
    by decide, by decide, by decide⟩

/-- C10 (amended). Take two descriptors that are equal in every field except
`UUID`, and two runs of `runCommand` on them that reach the hypervisor and in
which the `range` loops visit the same entries in the same order.  The two
argument vectors have the same length and are equal at every position except
position 7, the token that follows `-U`, and the last position, the `kexec`
directive (whose command line carries `uuid=<UUID>`).  Position 6 holds `-U` and
position 7 the UUID of the descriptor. -/
theorem vectors_differ_only_in_uuid_tokens (env : Session) (vm1 vm2 : VMInfo)
    (o : RangeOrder) (c1 c2 : GoString) (a1 a2 : List GoString)
    (hsame : vm2 = { vm1 with UUID := vm2.UUID })
    (h1 : runCommand env vm1 o = Except.ok (c1, a1))
    (h2 : runCommand env vm2 o = Except.ok (c2, a2)) :
    a1.length = a2.length ∧
    (∀ i : Nat, i ≠ 7 → i + 1 ≠ a1.length → a1[i]? = a2[i]?) ∧
    a1[6]? = some "-U".toList ∧ a2[6]? = some "-U".toList ∧
    a1[7]? = some vm1.UUID ∧ a2[7]? = some vm2.UUID ∧
    a1.getLast? = some (documentedKexec env vm1 c1) ∧
    a2.getLast? = some (documentedKexec env vm2 c2) := by
  have hv1 := (runCommand_ok env vm1 o c1 a1 h1).2
  have hv2 := (runCommand_ok env vm2 o c2 a2 h2).2
  rw [documentedVector_shape] at hv1 hv2
  have hM : vm2.Memory = vm1.Memory := by rw [hsame]
  have hC : vm2.Cpus = vm1.Cpus := by rw [hsame]
  have hE : vm2.Extra = vm1.Extra := by rw [hsame]
  rw [hM, hC, hE] at hv2
  rw [hv1, hv2]
  refine ⟨?_, ?_, ?_, ?_, ?_, ?_, ?_, ?_⟩
  · simp
  · intro i hi hlast
    apply getElem?_two_holes
    · simpa using hi
    · intro hh
      apply hlast
      rw [hh]
      simp
      omega
  · simp
  · simp
  · simp
  · simp
  · rw [getLast?_two_holes]
  · rw [getLast?_two_holes]

theorem vectors_differ_only_in_uuid_tokens_witness :
    ({ VMInfo.twoNics with UUID := "v".toList } : VMInfo) =
      { VMInfo.twoNics with
        UUID := ({ VMInfo.twoNics with UUID := "v".toList } : VMInfo).UUID } ∧
    runCommand Session.demo VMInfo.twoNics
        { raw := [rawEntry 0, rawEntry 1], cd := [], hd := [] } =
      Except.ok (documentedCmdline Session.demo VMInfo.twoNics,
        documentedVector Session.demo VMInfo.twoNics
          { raw := [rawEntry 0, rawEntry 1], cd := [], hd := [] }
          (documentedCmdline Session.demo VMInfo.twoNics)) ∧
    runCommand Session.demo { VMInfo.twoNics with UUID := "v".toList }
        { raw := [rawEntry 0, rawEntry 1], cd := [], hd := [] } =
      Except.ok (documentedCmdline Session.demo { VMInfo.twoNics with UUID := "v".toList },
        documentedVector Session.demo { VMInfo.twoNics with UUID := "v".toList }
          { raw := [rawEntry 0, rawEntry 1], cd := [], hd := [] }
          (documentedCmdline Session.demo { VMInfo.twoNics with UUID := "v".toList })) ∧
    (documentedVector Session.demo VMInfo.twoNics
        { raw := [rawEntry 0, rawEntry 1], cd := [], hd := [] }
        (documentedCmdline Session.demo VMInfo.twoNics))[7]? = some "u".toList ∧
    (documentedVector Session.demo { VMInfo.twoNics with UUID := "v".toList }
        { raw := [rawEntry 0, rawEntry 1], cd := [], hd := [] }
        (documentedCmdline Session.demo { VMInfo.twoNics with UUID := "v".toList }))[7]? =
      some "v".toList :=
  ⟨rfl, runCommand_eq_documented _ _ _ (launchReached_demo _),
    runCommand_eq_documented _ _ _ (launchReached_demo _),
    (vectors_differ_only_in_uuid_tokens Session.demo VMInfo.twoNics
      { VMInfo.twoNics with UUID := "v".toList }
      { raw := [rawEntry 0, rawEntry 1], cd := [], hd := [] } _ _ _ _ rfl
      (runCommand_eq_documented _ _ _ (launchReached_demo _))
      (runCommand_eq_documented _ _ _ (launchReached_demo _))).2.2.2.2.1,
    (vectors_differ_only_in_uuid_tokens Session.demo VMInfo.twoNics
      { VMInfo.twoNics with UUID := "v".toList }
      { raw := [rawEntry 0, rawEntry 1], cd := [], hd := [] } _ _ _ _ rfl
      (runCommand_eq_documented _ _ _ (launchReached_demo _))
      (runCommand_eq_documented _ _ _ (launchReached_demo _))).2.2.2.2.2.1⟩

/-! ## `validateRAM`, `validateCPU`, `uuidCheck` -/

theorem validateRAM_of_ge (vm : VMInfo) (s : GoString) (v : Int) (hv : atoi s = some v)
    (hge : 1024 ≤ v) : validateRAM vm s = { vm with Memory := s } := by
  have : ¬ v < 1024 := by omega
  unfold validateRAM
  rw [hv]
  simp [this]

theorem validateRAM_of_lt (vm : VMInfo) (s : GoString) (v : Int) (hv : atoi s = some v)
    (hlt : v < 1024) : validateRAM vm s = { vm with Memory := "1024".toList } := by
  unfold validateRAM
  rw [hv]
  simp [hlt]

theorem validateRAM_of_none (vm : VMInfo) (s : GoString) (hv : atoi s = none) :
    validateRAM vm s = { vm with Memory := "1024".toList } := by
  unfold validateRAM
  rw [hv]

theorem validateCPU_of_some (vm : VMInfo) (s : GoString) (v : Int) (hv : atoi s = some v) :
    validateCPU vm s = { vm with Cpus := s } := by
  unfold validateCPU
  rw [hv]
  simp

theorem validateCPU_of_none (vm : VMInfo) (s : GoString) (hv : atoi s = none) :
    validateCPU vm s = { vm with Cpus := "1".toList } := by
  unfold validateCPU
  rw [hv]
  simp

/-- C11. For every input string `s`, `validateRAM` sets `Memory` to `s` itself when
`strconv.Atoi` parses `s` as an integer that is at least 1024, and to `"1024"`
otherwise (no parse, or a value below 1024); no other field of the descriptor
changes.  So `"512"` and `"abc"` give `"1024"`, `"2048"` stays `"2048"`, and after
`validateRAM` the field `Memory` always parses as an integer that is at least
1024. -/
theorem validateRAM_floor (vm : VMInfo) (s : GoString) :
    (∀ v : Int, atoi s = some v → 1024 ≤ v → validateRAM vm s = { vm with Memory := s }) ∧
    ((∀ v : Int, atoi s = some v → v < 1024) →
      validateRAM vm s = { vm with Memory := "1024".toList }) ∧
    (∃ v : Int, atoi (validateRAM vm s).Memory = some v ∧ 1024 ≤ v) ∧
    validateRAM vm "512".toList = { vm with Memory := "1024".toList } ∧
    validateRAM vm "abc".toList = { vm with Memory := "1024".toList } ∧
    validateRAM vm "2048".toList = { vm with Memory := "2048".toList } := by
  have h1024 : atoi "1024".toList = some 1024 := by decide
  refine ⟨?_, ?_, ?_, ?_, ?_, ?_⟩
  · intro v hv hge
    exact validateRAM_of_ge vm s v hv hge
  · intro h
    cases hs : atoi s with
    | none => exact validateRAM_of_none vm s hs
    | some v => exact validateRAM_of_lt vm s v hs (h v hs)
  · cases hs : atoi s with
    | none =>
      rw [validateRAM_of_none vm s hs]
      exact ⟨1024, h1024, le_refl _⟩
    | some v =>
      by_cases hlt : v < 1024
      · rw [validateRAM_of_lt vm s v hs hlt]
        exact ⟨1024, h1024, le_refl _⟩
      · rw [validateRAM_of_ge vm s v hs (by omega)]
        exact ⟨v, hs, by omega⟩
  · exact validateRAM_of_lt vm _ 512 (by decide) (by decide)
  · exact validateRAM_of_none vm _ (by decide)
  · exact validateRAM_of_ge vm _ 2048 (by decide) (by decide)

theorem validateRAM_floor_witness :
    atoi "4096".toList = some 4096 ∧
    validateRAM VMInfo.empty "4096".toList = { VMInfo.empty with Memory := "4096".toList } ∧
    validateRAM VMInfo.empty "1023".toList = { VMInfo.empty with Memory := "1024".toList } :=
  ⟨by decide,
    (validateRAM_floor VMInfo.empty "4096".toList).1 4096 (by decide) (by decide),
    (validateRAM_floor VMInfo.empty "1023".toList).2.1 (fun v hv => by
      have h : atoi "1023".toList = some 1023 := by decide
      rw [h] at hv
      cases hv
      decide)⟩

/-- C17. For every input string `s`, `validateCPU` sets `Cpus` to `s` itself when
`strconv.Atoi` parses `s` as an integer (of any sign, zero included) and to `"1"`
otherwise; no other field of the descriptor changes. -/
theorem validateCPU_sets_cpus (vm : VMInfo) (s : GoString) :
    (∀ v : Int, atoi s = some v → validateCPU vm s = { vm with Cpus := s }) ∧
    (atoi s = none → validateCPU vm s = { vm with Cpus := "1".toList }) ∧
    validateCPU vm "0".toList = { vm with Cpus := "0".toList } ∧
    validateCPU vm "-3".toList = { vm with Cpus := "-3".toList } ∧
    validateCPU vm "+4".toList = { vm with Cpus := "+4".toList } ∧
    validateCPU vm "four".toList = { vm with Cpus := "1".toList } := by
  refine ⟨?_, ?_, ?_, ?_, ?_, ?_⟩
  · intro v hv
    exact validateCPU_of_some vm s v hv
  · intro h
    exact validateCPU_of_none vm s h
  · exact validateCPU_of_some vm _ 0 (by decide)
  · exact validateCPU_of_some vm _ (-3) (by decide)
  · exact validateCPU_of_some vm _ 4 (by decide)
  · exact validateCPU_of_none vm _ (by decide)

theorem validateCPU_sets_cpus_witness :
    atoi "8".toList = some 8 ∧
    validateCPU VMInfo.empty "8".toList = { VMInfo.empty with Cpus := "8".toList } ∧
    atoi "8x".toList = none ∧
    validateCPU VMInfo.empty "8x".toList = { VMInfo.empty with Cpus := "1".toList } :=
  ⟨by decide, (validateCPU_sets_cpus VMInfo.empty "8".toList).1 8 (by decide),
    by decide, (validateCPU_sets_cpus VMInfo.empty "8x".toList).2.1 (by decide)⟩

/-- C16. For every input string `x`, `uuidCheck` sets `UUID` to `x` itself when `x`
is not `"random"` and `uuid.FromString` parses it, and otherwise (`x` is `"random"`
or `x` does not parse) to the freshly generated UUID; no other field of the
descriptor changes.  When the generated string is one that `uuid.FromString`
parses, so is the field `UUID` after `uuidCheck`. -/
theorem uuidCheck_sets_uuid (env : Session) (fresh : GoString) (vm : VMInfo) (x : GoString) :
    uuidCheck env fresh vm x =
      { vm with UUID :=
          if x ≠ "random".toList ∧ env.uuidParses x = true then x else fresh } ∧
    (env.uuidParses fresh = true → env.uuidParses (uuidCheck env fresh vm x).UUID = true) := by
  by_cases hr : x = "random".toList
  · have hc : ¬ (x ≠ "random".toList ∧ env.uuidParses x = true) := fun h => h.1 hr
    rw [uuidCheck, if_pos hr, if_neg hc]
    exact ⟨rfl, fun h => h⟩
  · by_cases hp : env.uuidParses x = true
    · have hc : x ≠ "random".toList ∧ env.uuidParses x = true := ⟨hr, hp⟩
      rw [uuidCheck, if_neg hr, if_pos hc, hp]
      simp only [Bool.not_true, Bool.false_eq_true, if_false]
      exact ⟨trivial, fun _ => hp⟩
    · have hc : ¬ (x ≠ "random".toList ∧ env.uuidParses x = true) := fun h => hp h.2
      have hf : env.uuidParses x = false := by simpa using hp
      rw [uuidCheck, if_neg hr, if_neg hc, hf]
      simp only [Bool.not_false, if_true]
      exact ⟨trivial, fun h => h⟩

theorem uuidCheck_sets_uuid_witness :
    Session.demo.uuidParses "6ba7b810-9dad-11d1-80b4-00c04fd430c8".toList = true ∧
    uuidCheck Session.demo "6ba7b810-9dad-11d1-80b4-00c04fd430c8".toList VMInfo.empty
        "random".toList =
      { VMInfo.empty with UUID := "6ba7b810-9dad-11d1-80b4-00c04fd430c8".toList } ∧
    Session.demo.uuidParses
      (uuidCheck Session.demo "6ba7b810-9dad-11d1-80b4-00c04fd430c8".toList VMInfo.empty
        "no".toList).UUID = true :=
  ⟨by decide,
    (uuidCheck_sets_uuid Session.demo "6ba7b810-9dad-11d1-80b4-00c04fd430c8".toList
      VMInfo.empty "random".toList).1,
    (uuidCheck_sets_uuid Session.demo "6ba7b810-9dad-11d1-80b4-00c04fd430c8".toList
      VMInfo.empty "no".toList).2 (by decide)⟩

/-! ## Tokens that add nothing: `tap<d>` and the empty string -/

theorem nicStep_tapToken (vm : VMInfo) (d : Char) (hd : d.isDigit = true) :
    nicStep vm (tapToken d) = Except.ok vm := by
  have h0 : (tapToken d).length > 0 := by simp [tapToken]
  have h1 : hasPrefix (tapToken d) "eth".toList = false := by
    simp [tapToken, hasPrefix, List.isPrefixOf]
  have h2 : hasPrefix (tapToken d) "tap".toList = true := by
    simp [tapToken, hasPrefix]
  have h3 : matchLitClassEnd "tap".toList Char.isDigit (tapToken d) = true := by
    simp [tapToken, matchLitClassEnd, hd]
  unfold nicStep
  simp only [h0, if_true, h1, Bool.false_eq_true, if_false, h2, h3, Bool.not_true]

theorem isTapToken_iff (t : GoString) :
    isTapToken t = true ↔ ∃ d : Char, d.isDigit = true ∧ t = tapToken d := by
  constructor
  · intro h
    unfold isTapToken at h
    split at h
    · rename_i d
      exact ⟨d, h, rfl⟩
    · cases h
  · rintro ⟨d, hd, rfl⟩
    simpa [isTapToken, tapToken] using hd

theorem validateNetworkInterfaces_filter (keep : GoString → Bool)
    (hskip : ∀ (vm : VMInfo) (t : GoString), keep t = false → nicStep vm t = Except.ok vm)
    (toks : List GoString) :
    ∀ vm : VMInfo, validateNetworkInterfaces vm toks =
      validateNetworkInterfaces vm (toks.filter keep) := by
  induction toks with
  | nil => intro vm; rfl
  | cons t rest ih =>
    intro vm
    cases hk : keep t
    · rw [List.filter_cons_of_neg (by simp [hk])]
      simp only [validateNetworkInterfaces]
      rw [hskip vm t hk]
      exact ih vm
    · rw [List.filter_cons_of_pos hk]
      simp only [validateNetworkInterfaces]
      cases nicStep vm t with
      | error e => rfl
      | ok vm1 => exact ih vm1

theorem validateVolumes_filter (env : Session) (keep : GoString → Bool)
    (hskip : ∀ (vm : VMInfo) (t : GoString), keep t = false →
      volumeStep env vm t = Except.ok vm)
    (toks : List GoString) :
    ∀ vm : VMInfo, validateVolumes env vm toks =
      validateVolumes env vm (toks.filter keep) := by
  induction toks with
  | nil => intro vm; rfl
  | cons t rest ih =>
    intro vm
    cases hk : keep t
    · rw [List.filter_cons_of_neg (by simp [hk])]
      simp only [validateVolumes]
      rw [hskip vm t hk]
      exact ih vm
    · rw [List.filter_cons_of_pos hk]
      simp only [validateVolumes]
      cases volumeStep env vm t with
      | error e => rfl
      | ok vm1 => exact ih vm1

/-- C14. For every digit `d` and every descriptor, `validateNetworkInterfaces` on
the token `tap<d>` does not abort and leaves the whole descriptor unchanged: no
device is created and no slot check is applied, so `[tap5]` alone and
`[tap0, tap0]` both succeed.  The outcome of a token list (the resulting
descriptor, or the fatal error) is the outcome of the same list with its tokens
that are exactly `tap<d>` removed. -/
theorem tap_tokens_ignored :
    (∀ (vm : VMInfo) (d : Char), d.isDigit = true →
      validateNetworkInterfaces vm [tapToken d] = Except.ok vm) ∧
    (∀ vm : VMInfo, validateNetworkInterfaces vm ["tap5".toList] = Except.ok vm) ∧
    (∀ vm : VMInfo,
      validateNetworkInterfaces vm ["tap0".toList, "tap0".toList] = Except.ok vm) ∧
    (∀ (vm : VMInfo) (toks : List GoString),
      validateNetworkInterfaces vm toks =
        validateNetworkInterfaces vm (toks.filter (fun t => !isTapToken t))) := by
  have hstep : ∀ (vm : VMInfo) (d : Char), d.isDigit = true →
      validateNetworkInterfaces vm [tapToken d] = Except.ok vm := by
    intro vm d hd
    simp only [validateNetworkInterfaces]
    rw [nicStep_tapToken vm d hd]
  refine ⟨hstep, ?_, ?_, ?_⟩
  · intro vm
    exact hstep vm '5' (by decide)
  · intro vm
    have h := nicStep_tapToken vm '0' (by decide)
    have h2 : validateNetworkInterfaces vm [tapToken '0', tapToken '0'] = Except.ok vm := by
      simp only [validateNetworkInterfaces]
      rw [h]
      simp only
      rw [h]
    exact h2
  · intro vm toks
    apply validateNetworkInterfaces_filter
    intro vm1 t ht
    have ht2 : isTapToken t = true := by simpa using ht
    obtain ⟨d, hd, rfl⟩ := (isTapToken_iff t).mp ht2
    exact nicStep_tapToken vm1 d hd

theorem tap_tokens_ignored_witness :
    validateNetworkInterfaces VMInfo.twoNics [tapToken '7'] = Except.ok VMInfo.twoNics ∧
    validateNetworkInterfaces VMInfo.empty
        ["tap3".toList, "eth0".toList, "tap3".toList, "eth1".toList] =
      validateNetworkInterfaces VMInfo.empty ["eth0".toList, "eth1".toList] :=
  ⟨tap_tokens_ignored.1 VMInfo.twoNics '7' (by decide),
    tap_tokens_ignored.2.2.2 VMInfo.empty
      ["tap3".toList, "eth0".toList, "tap3".toList, "eth1".toList]⟩

/-- C15. For every token list, `validateVolumes` and `validateNetworkInterfaces`
give the same outcome (the same resulting descriptor, or the same fatal error)
as on the list with all empty-string tokens removed; a list made only of empty
strings leaves the descriptor unchanged. -/
theorem empty_tokens_ignored :
    (∀ (env : Session) (vm : VMInfo) (toks : List GoString),
      validateVolumes env vm toks =
        validateVolumes env vm (toks.filter (fun t => decide (t ≠ [])))) ∧
    (∀ (vm : VMInfo) (toks : List GoString),
      validateNetworkInterfaces vm toks =
        validateNetworkInterfaces vm (toks.filter (fun t => decide (t ≠ [])))) ∧
    (∀ (env : Session) (vm : VMInfo) (toks : List GoString), (∀ t ∈ toks, t = []) →
      validateVolumes env vm toks = Except.ok vm ∧
      validateNetworkInterfaces vm toks = Except.ok vm) := by
  have hv : ∀ (env : Session) (vm : VMInfo) (toks : List GoString),
      validateVolumes env vm toks =
        validateVolumes env vm (toks.filter (fun t => decide (t ≠ []))) := by
    intro env vm toks
    apply validateVolumes_filter
    intro vm1 t ht
    have ht2 : t = [] := by simpa using ht
    subst ht2
    rfl
  have hn : ∀ (vm : VMInfo) (toks : List GoString),
      validateNetworkInterfaces vm toks =
        validateNetworkInterfaces vm (toks.filter (fun t => decide (t ≠ []))) := by
    intro vm toks
    apply validateNetworkInterfaces_filter
    intro vm1 t ht
    have ht2 : t = [] := by simpa using ht
    subst ht2
    rfl
  refine ⟨hv, hn, ?_⟩
  intro env vm toks hall
  have hnil : toks.filter (fun t => decide (t ≠ [])) = [] := by
    rw [List.filter_eq_nil_iff]
    intro t ht
    simp [hall t ht]
  constructor
  · rw [hv env vm toks, hnil]; rfl
  · rw [hn vm toks, hnil]; rfl

theorem empty_tokens_ignored_witness :
    validateVolumes Session.demo VMInfo.empty ["".toList, "vda@p".toList, "".toList] =
      validateVolumes Session.demo VMInfo.empty ["vda@p".toList] ∧
    validateVolumes Session.demo VMInfo.twoNics ["".toList, "".toList] =
      Except.ok VMInfo.twoNics :=
  ⟨empty_tokens_ignored.1 Session.demo VMInfo.empty ["".toList, "vda@p".toList, "".toList],
    (empty_tokens_ignored.2.2 Session.demo VMInfo.twoNics ["".toList, "".toList]
      (by
        intro t ht
        simp only [List.mem_cons, List.mem_singleton, List.not_mem_nil, or_false] at ht
        rcases ht with h | h <;> exact h)).1⟩

/-! ## The NFS exports file -/

theorem split_append (sep : Char) (a b : GoString) :
    split sep (a ++ sep :: b) = split sep a ++ split sep b := by
  induction a with
  | nil => simp [split]
  | cons x a ih =>
    by_cases hx : x = sep
    · simp [split, hx, ih]
    · have hpos := split_length_pos sep a
      cases hs : split sep a with
      | nil => rw [hs] at hpos; simp at hpos
      | cons p ps =>
        have ih2 : split sep (a ++ sep :: b) = p :: (ps ++ split sep b) := by
          rw [ih, hs]; rfl
        show split sep (x :: (a ++ sep :: b)) = split sep (x :: a) ++ split sep b
        simp only [split, hx, if_false, ih2, hs]
        rfl

theorem hasSignatureLine_iff (sig : GoString) (lines : List GoString) :
    hasSignatureLine sig lines = true ↔ sig ∈ lines := by
  induction lines with
  | nil => simp [hasSignatureLine]
  | cons l rest ih =>
    by_cases h : l = sig
    · simp [hasSignatureLine, h]
    · have h2 : ¬ sig = l := fun hh => h hh.symm
      simp [hasSignatureLine, h, h2, ih]

theorem hasSignatureLine_eq_false_iff (sig content : GoString) :
    hasSignatureLine sig (split '\n' content) = false ↔ countSignatureLines sig content = 0 := by
  unfold countSignatureLines
  rw [List.count_eq_zero, ← hasSignatureLine_iff]
  simp

theorem init_eq (env : Session) (buf : GoString) :
    etcExports.init env (some buf) =
      Except.ok { exports := "/etc/exports".toList, buf := buf,
                  signature := exportsSignature env, restart := false,
                  shared := hasSignatureLine (exportsSignature env) (split '\n' buf) } := by
  have hsig : "/Users ".toList ++ "-network 192.168.64.0 -mask 255.255.255.0".toList ++
      " -alldirs -mapall=".toList ++ env.uid ++ ":".toList ++ env.gid = exportsSignature env := by
    simp [exportsSignature]
  simp only [etcExports.init, hsig]

theorem exportsSignature_ne_nil (env : Session) : exportsSignature env ≠ [] := by
  simp [exportsSignature]

theorem exportsSignature_no_newline (env : Session) (hu : '\n' ∉ env.uid)
    (hg : '\n' ∉ env.gid) : '\n' ∉ exportsSignature env := by
  simp [exportsSignature, hu, hg]

theorem split_shared (sig b : GoString) (hsig : '\n' ∉ sig) :
    split '\n' (b ++ ("\n".toList ++ (sig ++ "\n".toList))) = split '\n' b ++ [sig, []] := by
  have h1 : b ++ ("\n".toList ++ (sig ++ "\n".toList)) = b ++ '\n' :: (sig ++ '\n' :: []) := by
    simp
  rw [h1, split_append, split_append_sep '\n' sig [] hsig]
  rfl

theorem replaceGo_skip (old new : GoString) (l : GoString) :
    ∀ n : Nat, l.length ≤ n → replaceGo old new n l = [] := by
  induction l with
  | nil => intro n _; cases n <;> rfl
  | cons c cs ih =>
    intro n hn
    cases n with
    | zero => simp at hn
    | succ k =>
      simp only [replaceGo]
      exact ih k (by simpa using hn)

theorem replaceGo_append_self (pat : GoString) (hpat : pat ≠ []) (b : GoString)
    (hno : ∀ pre suf : GoString, b = pre ++ suf → suf ≠ [] →
      pat.isPrefixOf (suf ++ pat) = false) :
    replaceGo pat [] 0 (b ++ pat) = b := by
  induction b with
  | nil =>
    cases hp : pat with
    | nil => exact absurd hp hpat
    | cons c cs =>
      have hself : (c :: cs).isPrefixOf (c :: cs) = true := by
        rw [List.isPrefixOf_iff_prefix]
      simp only [List.nil_append, replaceGo, hself, if_true]
      exact replaceGo_skip _ _ cs _ (by simp)
  | cons x xs ih =>
    have h1 : pat.isPrefixOf (x :: (xs ++ pat)) = false :=
      hno [] (x :: xs) rfl (by simp)
    have h2 : ∀ pre suf : GoString, xs = pre ++ suf → suf ≠ [] →
        pat.isPrefixOf (suf ++ pat) = false := by
      intro pre suf hxs hne
      exact hno (x :: pre) suf (by rw [hxs]; rfl) hne
    show replaceGo pat [] 0 (x :: (xs ++ pat)) = x :: xs
    simp only [replaceGo, h1, Bool.false_eq_true, if_false, ih h2]

theorem prefix_of_no_newline (sig : GoString) (hsig : '\n' ∉ sig) :
    ∀ rest tail : GoString, (sig ++ ['\n']) <+: (rest ++ '\n' :: tail) →
      rest = sig ∨ (sig ++ ['\n']) <+: rest := by
  induction sig with
  | nil =>
    intro rest tail h
    cases rest with
    | nil => left; rfl
    | cons r rs =>
      right
      simp only [List.nil_append, List.cons_append] at h
      rw [List.cons_prefix_cons] at h
      rw [h.1]
      simp
  | cons s ss ih =>
    have hs : s ≠ '\n' := fun hh => hsig (by rw [hh]; exact List.mem_cons_self _ _)
    have hss : '\n' ∉ ss := fun hh => hsig (List.mem_cons_of_mem _ hh)
    intro rest tail h
    cases rest with
    | nil =>
      simp only [List.nil_append, List.cons_append] at h
      rw [List.cons_prefix_cons] at h
      exact absurd h.1 hs
    | cons r rs =>
      simp only [List.cons_append] at h
      rw [List.cons_prefix_cons] at h
      obtain ⟨hr, hrest⟩ := h
      rcases ih hss rs tail hrest with h1 | h1
      · left; rw [hr, h1]
      · right
        simp only [List.cons_append]
        rw [List.cons_prefix_cons]
        exact ⟨hr, h1⟩

theorem no_occurrence_of_no_line (sig b : GoString) (hsig : '\n' ∉ sig)
    (hline : sig ∉ split '\n' b) :
    ∀ pre suf : GoString, b = pre ++ suf → suf ≠ [] →
      ('\n' :: (sig ++ ['\n'])).isPrefixOf (suf ++ '\n' :: (sig ++ ['\n'])) = false := by
  intro pre suf hb hne
  cases hp : ('\n' :: (sig ++ ['\n'])).isPrefixOf (suf ++ '\n' :: (sig ++ ['\n'])) with
  | false => rfl
  | true =>
    exfalso
    rw [List.isPrefixOf_iff_prefix] at hp
    cases suf with
    | nil => exact hne rfl
    | cons c rest =>
      simp only [List.cons_append] at hp
      rw [List.cons_prefix_cons] at hp
      obtain ⟨hc, hrest⟩ := hp
      apply hline
      rcases prefix_of_no_newline sig hsig rest _ hrest with h1 | ⟨r, h1⟩
      · rw [hb, ← hc, h1, split_append, split_no_sep '\n' sig hsig]
        simp
      · rw [hb, ← hc, ← h1, split_append]
        have : sig ++ ['\n'] ++ r = sig ++ '\n' :: r := by simp
        rw [this, split_append_sep '\n' sig r hsig]
        simp

theorem reload_file (env : Session) (file : Option GoString) :
    (etcExports.reload env file).file = file := by
  unfold etcExports.reload
  split <;> rfl

theorem share_file (env : Session) (b : GoString) :
    (etcExports.share env (some b)).file =
      if hasSignatureLine (exportsSignature env) (split '\n' b) = true then some b
      else if env.writeFileOk "/etc/exports".toList = true then
        some (b ++ ("\n".toList ++ (exportsSignature env ++ "\n".toList)))
      else some b := by
  unfold etcExports.share
  rw [init_eq]
  cases hs : hasSignatureLine (exportsSignature env) (split '\n' b)
  · simp only [hs, Bool.not_false, if_true, reload_file, Bool.false_eq_true, if_false]
  · simp only [hs, Bool.not_true, Bool.false_eq_true, if_false, if_true]

theorem unshare_file (env : Session) (b : GoString) :
    (etcExports.unshare env (some b)).file =
      if hasSignatureLine (exportsSignature env) (split '\n' b) = true then
        if env.writeFileOk "/etc/exports".toList = true then
          some (replaceGo (("\n".toList ++ exportsSignature env) ++ "\n".toList) [] 0 b)
        else some b
      else some b := by
  unfold etcExports.unshare
  rw [init_eq]
  cases hs : hasSignatureLine (exportsSignature env) (split '\n' b)
  · simp only [hs, Bool.false_eq_true, if_false]
  · simp only [hs, if_true, reload_file]

theorem share_file_none (env : Session) : (etcExports.share env none).file = none := rfl

theorem hasSignatureLine_shared (env : Session) (b : GoString)
    (hsig : '\n' ∉ exportsSignature env) :
    hasSignatureLine (exportsSignature env)
      (split '\n' (b ++ ("\n".toList ++ (exportsSignature env ++ "\n".toList)))) = true := by
  rw [hasSignatureLine_iff, split_shared _ b hsig]
  simp

theorem share_share_file (env : Session) (hsig : '\n' ∉ exportsSignature env)
    (file : Option GoString) :
    (etcExports.share env (etcExports.share env file).file).file =
      (etcExports.share env file).file := by
  cases file with
  | none => rfl
  | some b =>
    rw [share_file env b]
    by_cases hs : hasSignatureLine (exportsSignature env) (split '\n' b) = true
    · rw [if_pos hs, share_file, if_pos hs]
    · rw [if_neg hs]
      by_cases hw : env.writeFileOk "/etc/exports".toList = true
      · rw [if_pos hw, share_file, if_pos (hasSignatureLine_shared env b hsig)]
      · rw [if_neg hw, share_file, if_neg hs, if_neg hw]

/-- C12. Let the uid and the gid of the session contain no line break, so that
the signature is one line.  (1) For every content of the exports file with no
line equal to the signature, when the write goes through, `share` leaves the
file with exactly one line equal to the signature (the content, a line break,
the signature and a line break), and a second `share` leaves that file byte for
byte as it is.  (2) For every initial state of the file,
`share` after `share` leaves the file as one `share` does.  (3) `unshare` on a
file with no line equal to the signature leaves the file byte for byte as it
is, and does not reload the export service. -/
theorem share_idempotent (env : Session) (huid : '\n' ∉ env.uid) (hgid : '\n' ∉ env.gid) :
    (∀ b : GoString, countSignatureLines (exportsSignature env) b = 0 →
      env.writeFileOk "/etc/exports".toList = true →
      (etcExports.share env (some b)).file =
        some (b ++ ("\n".toList ++ (exportsSignature env ++ "\n".toList))) ∧
      countSignatureLines (exportsSignature env)
        (b ++ ("\n".toList ++ (exportsSignature env ++ "\n".toList))) = 1 ∧
      (etcExports.share env (etcExports.share env (some b)).file).file =
        (etcExports.share env (some b)).file) ∧
    (∀ file : Option GoString,
      (etcExports.share env (etcExports.share env file).file).file =
        (etcExports.share env file).file) ∧
    (∀ b : GoString, countSignatureLines (exportsSignature env) b = 0 →
      etcExports.unshare env (some b) = { file := some b, fatal := none }) := by
  have hsig := exportsSignature_no_newline env huid hgid
  refine ⟨?_, ?_, ?_⟩
  · intro b hno hw
    have hs := (hasSignatureLine_eq_false_iff (exportsSignature env) b).mpr hno
    have hs2 : ¬ hasSignatureLine (exportsSignature env) (split '\n' b) = true := by
      rw [hs]; simp
    refine ⟨?_, ?_, share_share_file env hsig (some b)⟩
    · rw [share_file, if_neg hs2, if_pos hw]
    · unfold countSignatureLines at hno ⊢
      rw [split_shared _ b hsig, List.count_append, hno]
      have hne : ¬ ([] : GoString) = exportsSignature env :=
        fun h => exportsSignature_ne_nil env h.symm
      simp [List.count_cons, hne, exportsSignature_ne_nil env]
  · intro file
    exact share_share_file env hsig file
  · intro b hno
    have hs := (hasSignatureLine_eq_false_iff (exportsSignature env) b).mpr hno
    unfold etcExports.unshare
    rw [init_eq]
    simp only [hs, Bool.false_eq_true, if_false]

theorem share_idempotent_witness :
    '\n' ∉ Session.demo.uid ∧ '\n' ∉ Session.demo.gid ∧
    countSignatureLines (exportsSignature Session.demo) "/tmp -ro\n".toList = 0 ∧
    (etcExports.share Session.demo (some "/tmp -ro\n".toList)).file =
      some ("/tmp -ro\n".toList ++
        ("\n".toList ++ (exportsSignature Session.demo ++ "\n".toList))) ∧
    etcExports.unshare Session.demo (some "/tmp -ro\n".toList) =
      { file := some "/tmp -ro\n".toList, fatal := none } :=
  ⟨by decide, by decide, by decide,
    ((share_idempotent Session.demo (by decide) (by decide)).1 "/tmp -ro\n".toList
      (by decide) rfl).1,
    (share_idempotent Session.demo (by decide) (by decide)).2.2 "/tmp -ro\n".toList
      (by decide)⟩

/-- C13 (evaluation of the code). `init` looks for the signature line by line,
but `unshare` removes the bytes `"\n" + signature + "\n"`.  A file whose first
line is the signature is detected as shared and is left as it is, the signature
line still in it; so is a file whose last line is the signature without a final
line break.  And in `a`, signature, `b` the two line breaks go with the
signature, so the lines `a` and `b` are not kept: the file becomes `ab`. -/
theorem unshare_misses_signature_lines :
    (etcExports.unshare Session.demo
        (some (exportsSignature Session.demo ++ "\n".toList))).file =
      some (exportsSignature Session.demo ++ "\n".toList) ∧
    countSignatureLines (exportsSignature Session.demo)
      (exportsSignature Session.demo ++ "\n".toList) = 1 ∧
    (etcExports.unshare Session.demo
        (some ("/tmp -ro\n".toList ++ exportsSignature Session.demo))).file =
      some ("/tmp -ro\n".toList ++ exportsSignature Session.demo) ∧
    (etcExports.unshare Session.demo
        (some ("a\n".toList ++ exportsSignature Session.demo ++ "\nb\n".toList))).file =
      some "ab\n".toList := by
  decide

/-- C18. Share/unshare round trip: for every content `b` of the exports file that
has no line equal to the signature, the signature containing no line break and
the writes going through, `unshare` applied to the file that `share` produced
from `b` restores exactly `b`, byte for byte. -/
theorem share_unshare_round_trip (env : Session) (b : GoString)
    (hsig : '\n' ∉ exportsSignature env)
    (hno : countSignatureLines (exportsSignature env) b = 0)
    (hw : env.writeFileOk "/etc/exports".toList = true) :
    (etcExports.unshare env (etcExports.share env (some b)).file).file = some b := by
  have hs := (hasSignatureLine_eq_false_iff (exportsSignature env) b).mpr hno
  have hs2 : ¬ hasSignatureLine (exportsSignature env) (split '\n' b) = true := by
    rw [hs]; simp
  have hline : exportsSignature env ∉ split '\n' b := by
    rw [← hasSignatureLine_iff]; exact hs2
  rw [share_file, if_neg hs2, if_pos hw, unshare_file,
    if_pos (hasSignatureLine_shared env b hsig), if_pos hw]
  have hpat : ("\n".toList ++ exportsSignature env) ++ "\n".toList =
      '\n' :: (exportsSignature env ++ ['\n']) := by simp
  have happ : b ++ ("\n".toList ++ (exportsSignature env ++ "\n".toList)) =
      b ++ '\n' :: (exportsSignature env ++ ['\n']) := by simp
  rw [hpat, happ, replaceGo_append_self _ (by simp) b
    (no_occurrence_of_no_line (exportsSignature env) b hsig hline)]

theorem share_unshare_round_trip_witness :
    '\n' ∉ exportsSignature Session.demo ∧
    countSignatureLines (exportsSignature Session.demo) "/tmp -ro".toList = 0 ∧
    Session.demo.writeFileOk "/etc/exports".toList = true ∧
    (etcExports.unshare Session.demo
      (etcExports.share Session.demo (some "/tmp -ro".toList)).file).file =
        some "/tmp -ro".toList :=
  ⟨by decide, by decide, rfl,
    share_unshare_round_trip Session.demo "/tmp -ro".toList (by decide) (by decide) rfl⟩

/-! ## Slot bounds -/

/-- C19 (evaluation of the code). After the 26 tokens `vda@p`, ..., `vdz@p`, which
fill the hard-drive slots 0 to 25, the token `vd{vda@p` is accepted: its tag
starts with `vd` and ends with `vda`, and the slot is read at index 2 of the tag,
where the byte `{` comes right after `z`.  The run is not fatal and the
descriptor it reaches holds 27 hard drives, the last one in slot 26. -/
theorem hard_drive_slot_beyond_z :
    (validateVolumes Session.demo VMInfo.empty
        ((List.range 26).map (fun i => "vd".toList ++ [Char.ofNat (97 + i)] ++ "@p".toList) ++
          ["vd\x7bvda@p".toList])).map
      (fun vm => (vm.Storage.HardDrives.length, vm.Storage.HardDrives.get? "26".toList)) =
    Except.ok (27, some { Typ := StorageType.HDD, Slot := 26, Path := "/w/p".toList }) := by
  decide

end Corectl
